import Mathlib

/-! # switchssh: configuration store and key switching

A shallow embedding of `main.go` of switchssh.  Go strings are byte sequences
and are modelled as lists of naturals (each a byte value below 256).  The
stateful parts (the process-wide `config`, standard input, the filesystem and
the external `ssh-add` / `sudo` processes) are modelled by explicit state
passing: every command takes an environment describing what the operating
system answers and returns the trace of calls it makes together with the final
in-memory configuration.

The Go standard-library functions the program calls (`strings.TrimSpace`,
`strings.ToLower`, `filepath.Base`, `fmt.Sscanf`, `encoding/json`,
`unicode/utf8`) are modelled after their behaviour on a 64-bit Unix platform:

* `encoding/json` is specialised to the two struct types of the program.  The
  encoder is the text `MarshalIndent` writes for a `Config`; the decoder is a
  parser for arbitrary JSON text followed by the store of the parsed value
  into a `Config`.
* The Unicode case table behind `strings.ToLower` is a parameter (`lower`) of
  the functions that use it; everything proved holds for every table.
* A `Printf` call is recorded with its format string and arguments, not with
  the rendered text.
-/

namespace SwitchSSH

/-- A Go `string`: an immutable sequence of bytes (not necessarily UTF-8). -/
abbrev GoString := List Nat

/-- An ASCII string literal of the program as a Go string. -/
def lit (s : String) : GoString := s.data.map Char.toNat

/-! ## unicode/utf8 -/

/-- The constant `utf8.RuneError` (U+FFFD). -/
def RuneError : Nat := 0xFFFD

/-- The function `utf8.DecodeRune`: the first rune of `p` and its width in
bytes; `(RuneError, 1)` for an invalid encoding, `(RuneError, 0)` for empty
input.  The bit masks and shifts of the Go code are written arithmetically:
`p0 & 0x1F` is `p0 % 32`, `b & 0x3F` is `b % 64`, and the shifted fields do
not overlap so `|` is `+`. -/
def decodeRune : GoString → Nat × Nat
  | [] => (RuneError, 0)
  | p0 :: rest =>
    if p0 < 0x80 then (p0, 1)
    else if p0 < 0xC2 ∨ 0xF4 < p0 then (RuneError, 1)
    else
      let lo := if p0 = 0xE0 then 0xA0 else if p0 = 0xF0 then 0x90 else 0x80
      let hi := if p0 = 0xED then 0x9F else if p0 = 0xF4 then 0x8F else 0xBF
      match rest with
      | [] => (RuneError, 1)
      | b1 :: r1 =>
        if p0 < 0xE0 then
          if b1 < lo ∨ hi < b1 then (RuneError, 1)
          else ((p0 % 32) * 64 + b1 % 64, 2)
        else
          match r1 with
          | [] => (RuneError, 1)
          | b2 :: r2 =>
            if p0 < 0xF0 then
              if b1 < lo ∨ hi < b1 then (RuneError, 1)
              else if b2 < 0x80 ∨ 0xBF < b2 then (RuneError, 1)
              else ((p0 % 16) * 4096 + (b1 % 64) * 64 + b2 % 64, 3)
            else
              match r2 with
              | [] => (RuneError, 1)
              | b3 :: _ =>
                if b1 < lo ∨ hi < b1 then (RuneError, 1)
                else if b2 < 0x80 ∨ 0xBF < b2 then (RuneError, 1)
                else if b3 < 0x80 ∨ 0xBF < b3 then (RuneError, 1)
                else ((p0 % 8) * 262144 + (b1 % 64) * 4096 + (b2 % 64) * 64 + b3 % 64, 4)

/-- The function `utf8.AppendRune` (the bytes written by `utf8.EncodeRune`):
surrogates and values above U+10FFFF are written as U+FFFD. -/
def appendRune (r : Nat) : GoString :=
  if r ≤ 0x7F then [r]
  else if r ≤ 0x7FF then [0xC0 + r / 64, 0x80 + r % 64]
  else if 0x10FFFF < r ∨ (0xD800 ≤ r ∧ r ≤ 0xDFFF) then [0xEF, 0xBF, 0xBD]
  else if r ≤ 0xFFFF then [0xE0 + r / 4096, 0x80 + r / 64 % 64, 0x80 + r % 64]
  else [0xF0 + r / 262144, 0x80 + r / 4096 % 64, 0x80 + r / 64 % 64, 0x80 + r % 64]

/-- Loop of `utf8.Valid`: no position decodes to `(RuneError, 1)`. -/
def validAux : Nat → GoString → Bool
  | 0, s => s.isEmpty
  | _ + 1, [] => true
  | fuel + 1, b :: rest =>
    let d := decodeRune (b :: rest)
    if d.1 = RuneError ∧ d.2 = 1 then false
    else validAux fuel ((b :: rest).drop d.2)

/-- The function `utf8.Valid`: whether the bytes are entirely valid UTF-8. -/
def utf8Valid (s : GoString) : Bool := validAux s.length s

/-- The runes of a string as `for _, c := range s` yields them: invalid bytes
come out as `RuneError`, one byte at a time. -/
def runesAux : Nat → GoString → List Nat
  | 0, _ => []
  | _ + 1, [] => []
  | fuel + 1, b :: rest =>
    let d := decodeRune (b :: rest)
    d.1 :: runesAux fuel ((b :: rest).drop d.2)

/-- The runes of `s` in order. -/
def runes (s : GoString) : List Nat := runesAux s.length s

/-! ## unicode.IsSpace, strings.TrimSpace, strings.ToLower -/

/-- The predicate `unicode.IsSpace`: the Unicode White_Space code points. -/
def isSpace (r : Nat) : Bool :=
  (9 ≤ r ∧ r ≤ 13) ∨ r = 0x20 ∨ r = 0x85 ∨ r = 0xA0 ∨ r = 0x1680 ∨
  (0x2000 ≤ r ∧ r ≤ 0x200A) ∨ r = 0x2028 ∨ r = 0x2029 ∨ r = 0x202F ∨
  r = 0x205F ∨ r = 0x3000

/-- Whether `b` may start a rune (`utf8.RuneStart`): not a continuation byte. -/
def runeStart (b : Nat) : Bool := decide (b / 64 ≠ 2)

/-- Backward scan of `utf8.DecodeLastRune`: given the bytes before the last
one in reverse order, how many of them belong to the slice `p[start:end]` that
is decoded: the scan steps back over at most `lim` bytes looking for a rune
start, and stops one byte further when it finds none. -/
def backSteps : Nat → GoString → Nat
  | _, [] => 0
  | 0, _ :: _ => 1
  | lim + 1, b :: before => if runeStart b then 1 else 1 + backSteps lim before

/-- The function `utf8.DecodeLastRune`, on the reversed string `rev` (last
byte first): the last rune and its width. -/
def decodeLastRune (rev : GoString) : Nat × Nat :=
  match rev with
  | [] => (RuneError, 0)
  | last :: before =>
    if last < 0x80 then (last, 1)
    else
      let width := backSteps 3 before + 1
      let d := decodeRune ((rev.take width).reverse)
      if d.2 ≠ width then (RuneError, 1) else d

/-- Leading part of `strings.TrimFunc(s, unicode.IsSpace)`: drop leading
white-space runes. -/
def trimLeftAux : Nat → GoString → GoString
  | 0, s => s
  | _ + 1, [] => []
  | fuel + 1, b :: rest =>
    let d := decodeRune (b :: rest)
    if isSpace d.1 then trimLeftAux fuel ((b :: rest).drop d.2) else b :: rest

/-- Trailing part of `strings.TrimFunc(s, unicode.IsSpace)`, on the reversed
string: drop trailing white-space runes. -/
def trimRightAux : Nat → GoString → GoString
  | 0, rev => rev
  | _ + 1, [] => []
  | fuel + 1, b :: rest =>
    let d := decodeLastRune (b :: rest)
    if isSpace d.1 then trimRightAux fuel ((b :: rest).drop d.2) else b :: rest

/-- The function `strings.TrimSpace`: `s` without leading and trailing Unicode
white space.  (The ASCII fast path of the Go code computes the same slice.) -/
def TrimSpace (s : GoString) : GoString :=
  let l := trimLeftAux s.length s
  (trimRightAux l.length l.reverse).reverse

/-- The function `strings.ToLower`.  For an all-ASCII string the letters
`A`..`Z` are mapped to `a`..`z`; otherwise the result is
`strings.Map(unicode.ToLower, s)`, the concatenation of the encodings of the
lower-cased runes.  The Unicode case table for runes from U+0080 on is the
parameter `lower`. -/
def ToLower (lower : Nat → Nat) (s : GoString) : GoString :=
  if s.all (fun c => decide (c < 0x80)) then
    s.map (fun c => if 65 ≤ c ∧ c ≤ 90 then c + 32 else c)
  else
    (runes s).flatMap (fun r =>
      appendRune (if r < 0x80 then (if 65 ≤ r ∧ r ≤ 90 then r + 32 else r) else lower r))

/-! ## path/filepath -/

/-- The function `filepath.Base` on Unix (separator `/`, no volume names): the
last element of the path after removing trailing slashes; `.` for the empty
path and `/` for a path of slashes only. -/
def Base (path : GoString) : GoString :=
  if path = [] then [46]
  else
    let stripped := (path.reverse.dropWhile (fun c => decide (c = 47))).reverse
    let last := (stripped.reverse.takeWhile (fun c => decide (c ≠ 47))).reverse
    if last = [] then [47] else last

/-! ## fmt.Sscanf with the format `%d` -/

/-- Whether `c` is an ASCII decimal digit. -/
def isDigit (c : Nat) : Bool := decide (48 ≤ c ∧ c ≤ 57)

/-- The method `(*ss).SkipSpace` of package fmt in `Sscanf` mode: skips
white-space runes; a newline is the error "unexpected newline" (`none`). -/
def skipSpaceAux : Nat → GoString → Option GoString
  | 0, s => some s
  | _ + 1, [] => some []
  | fuel + 1, b :: rest =>
    let d := decodeRune (b :: rest)
    if d.1 = 10 then none
    else if isSpace d.1 then skipSpaceAux fuel ((b :: rest).drop d.2)
    else some (b :: rest)

/-- White-space skipping of `Sscanf` over the whole remaining input. -/
def skipSpace (s : GoString) : Option GoString := skipSpaceAux s.length s

/-- The call `fmt.Sscanf(s, "%d", &index)` with `index` of type `int` (64
bits): `some v` when it returns a nil error having stored `v`, `none` when it
returns an error.  After skipping white space it accepts an optional sign and
then the longest run of decimal digits (at least one); the token is converted
with `strconv.ParseInt(tok, 10, 64)`, which fails outside the `int64` range.
Input after the token is left unread and is not an error. -/
def SscanfInt (s : GoString) : Option Int :=
  match skipSpace s with
  | none => none
  | some s1 =>
    match skipSpace s1 with
    | none => none
    | some s2 =>
      let signed : Bool × GoString :=
        match s2 with
        | 43 :: t => (false, t)
        | 45 :: t => (true, t)
        | _ => (false, s2)
      let digits := signed.2.takeWhile isDigit
      if digits = [] then none
      else
        let n : Nat := digits.foldl (fun acc d => acc * 10 + (d - 48)) 0
        let v : Int := if signed.1 then -(n : Int) else (n : Int)
        if v < -(2 ^ 63 : Int) ∨ (2 ^ 63 : Int) - 1 < v then none else some v

/-! ## Data model -/

/-- The struct `SSHKey`: a registered SSH key. -/
structure SSHKey where
  Path : GoString
  Alias : GoString
  SudoMode : Bool
  deriving DecidableEq, Repr

/-- The struct `Config`: the configuration file structure.  The slice `Keys`
is `none` when it is the nil slice and `some l` (possibly with `l` empty)
otherwise. -/
structure Config where
  Keys : Option (List SSHKey)
  deriving DecidableEq, Repr

/-- The elements of `config.Keys` (none for a nil slice). -/
def Config.keys (c : Config) : List SSHKey := c.Keys.getD []

/-- The zero value of `SSHKey`. -/
def SSHKey.zero : SSHKey := { Path := [], Alias := [], SudoMode := false }

/-- The zero value of `Config`, the initial value of the global `config`. -/
def Config.zero : Config := { Keys := none }

/-! ## encoding/json: encoder, specialised to `Config` -/

/-- The table `hex` of the encoder: the lower-case hexadecimal digit of `d`. -/
def hexDigit (d : Nat) : Nat := if d < 10 then 48 + d else 87 + d

/-- The table `htmlSafeSet`: ASCII bytes written unescaped inside a JSON
string when HTML escaping is on (as it is for `MarshalIndent`). -/
def htmlSafe (b : Nat) : Bool :=
  decide (0x20 ≤ b ∧ b < 0x80 ∧ b ≠ 34 ∧ b ≠ 92 ∧ b ≠ 60 ∧ b ≠ 62 ∧ b ≠ 38)

/-- Escape sequence the encoder writes for an ASCII byte outside
`htmlSafeSet` (the short forms for backspace and form feed are those of Go
1.22 and later; earlier versions write the six-byte forms, which the decoder
reads alike). -/
def escapeByte (b : Nat) : GoString :=
  if b = 92 ∨ b = 34 then [92, b]
  else if b = 8 then [92, 98]
  else if b = 12 then [92, 102]
  else if b = 10 then [92, 110]
  else if b = 13 then [92, 114]
  else if b = 9 then [92, 116]
  else [92, 117, 48, 48, hexDigit (b / 16), hexDigit (b % 16)]

/-- Loop of the encoder function `appendString`: the body of the JSON string
literal for `s`.  Every invalid UTF-8 byte is written as the six-byte escape
for U+FFFD, and U+2028 / U+2029 as their six-byte escapes.  (This is the
classic `encoding/json`; the implementation backed by `encoding/json/v2`
writes the three raw bytes of U+FFFD for an invalid byte instead.  The two
agree on valid UTF-8, and the decoder reads both forms as U+FFFD.) -/
def appendStringAux : Nat → GoString → GoString
  | 0, _ => []
  | _ + 1, [] => []
  | fuel + 1, b :: rest =>
    if b < 0x80 then
      (if htmlSafe b then [b] else escapeByte b) ++ appendStringAux fuel rest
    else
      let d := decodeRune (b :: rest)
      if d.1 = RuneError ∧ d.2 = 1 then
        [92, 117, 102, 102, 102, 100] ++ appendStringAux fuel rest
      else if d.1 = 0x2028 ∨ d.1 = 0x2029 then
        [92, 117, 50, 48, 50, hexDigit (d.1 % 16)] ++
          appendStringAux fuel ((b :: rest).drop d.2)
      else
        (b :: rest).take d.2 ++ appendStringAux fuel ((b :: rest).drop d.2)

/-- The encoder function `appendString`: `s` as a quoted JSON string. -/
def appendString (s : GoString) : GoString :=
  [34] ++ appendStringAux s.length s ++ [34]

/-- Line break of `json.Indent` with prefix `""` and indent `"  "` at nesting
depth `depth`. -/
def newline (depth : Nat) : GoString := 10 :: List.replicate (2 * depth) 32

/-- One `SSHKey` as `MarshalIndent` writes it inside the `keys` array. -/
def encodeKey (k : SSHKey) : GoString :=
  [123] ++ newline 3 ++ lit "\"path\": " ++ appendString k.Path ++ [44] ++
  newline 3 ++ lit "\"alias\": " ++ appendString k.Alias ++ [44] ++
  newline 3 ++ lit "\"sudo_mode\": " ++ (if k.SudoMode then lit "true" else lit "false") ++
  newline 2 ++ [125]

/-- The elements of a non-empty `keys` array, separated by commas and line
breaks. -/
def encodeKeys : List SSHKey → GoString
  | [] => []
  | [k] => encodeKey k
  | k :: k2 :: ks => encodeKey k ++ [44] ++ newline 2 ++ encodeKeys (k2 :: ks)

/-- The bytes of `json.MarshalIndent(config, "", "  ")`: a nil slice is
written `null`, an empty one `[]`. -/
def MarshalIndent (c : Config) : GoString :=
  [123] ++ newline 1 ++ lit "\"keys\": " ++
  (match c.Keys with
   | none => lit "null"
   | some [] => lit "[]"
   | some (k :: ks) => [91] ++ newline 2 ++ encodeKeys (k :: ks) ++ newline 1 ++ [93]) ++
  newline 0 ++ [125]

/-! ## encoding/json: decoder -/

/-- A parsed JSON value.  Numbers carry no value: no field of `Config` is
numeric, so a number is only ever skipped or a type error. -/
inductive JSON where
  | null
  | bool (b : Bool)
  | num
  | str (s : GoString)
  | arr (elems : List JSON)
  | obj (members : List (GoString × JSON))

/-- JSON white space: space, tab, carriage return, line feed. -/
def isWS (c : Nat) : Bool := decide (c = 32 ∨ c = 9 ∨ c = 13 ∨ c = 10)

/-- Skip JSON white space. -/
def skipWS (s : GoString) : GoString := s.dropWhile isWS

/-- Value of a hexadecimal digit, if `c` is one. -/
def hexVal (c : Nat) : Option Nat :=
  if 48 ≤ c ∧ c ≤ 57 then some (c - 48)
  else if 97 ≤ c ∧ c ≤ 102 then some (c - 87)
  else if 65 ≤ c ∧ c ≤ 70 then some (c - 55)
  else none

/-- The decoder function `getu4` after the `\u` has been read: the value of
the next four hexadecimal digits and the input after them. -/
def getu4 : GoString → Option (Nat × GoString)
  | a :: b :: c :: d :: rest =>
    match hexVal a, hexVal b, hexVal c, hexVal d with
    | some x, some y, some z, some w => some (x * 4096 + y * 256 + z * 16 + w, rest)
    | _, _, _, _ => none
  | _ => none

/-- The byte a single-character escape stands for (`\"`, `\\`, `\/`, `\b`,
`\f`, `\n`, `\r`, `\t`), if `e` is one. -/
def simpleEscape (e : Nat) : Option Nat :=
  if e = 34 ∨ e = 92 ∨ e = 47 then some e
  else if e = 98 then some 8
  else if e = 102 then some 12
  else if e = 110 then some 10
  else if e = 114 then some 13
  else if e = 116 then some 9
  else none

/-- Low half of a surrogate pair: when the `\uXXXX` escape with the high
surrogate `hi` is directly followed by an escape `\uYYYY` with a low
surrogate, the combined rune and the input after the second escape. -/
def lowSurrogate (hi : Nat) (s : GoString) : Option (Nat × GoString) :=
  match s with
  | 92 :: 117 :: t =>
    match getu4 t with
    | some (lo, rest) =>
      if hi < 0xDC00 ∧ 0xDC00 ≤ lo ∧ lo < 0xE000 then
        some ((hi - 0xD800) * 1024 + (lo - 0xDC00) + 0x10000, rest)
      else none
    | none => none
  | _ => none

/-- Scanning and unquoting of a JSON string literal, started after its opening
quote: the decoded bytes and the input after the closing quote, or `none` for
a malformed literal (raw control character, bad escape, missing quote).  As in
the decoder function `unquote`, raw invalid UTF-8 and unpaired surrogate
escapes decode to U+FFFD. -/
def parseStringAux : Nat → GoString → Option (GoString × GoString)
  | 0, _ => none
  | _ + 1, [] => none
  | fuel + 1, c :: rest =>
    if c = 34 then some ([], rest)
    else if c = 92 then
      match rest with
      | [] => none
      | e :: rest1 =>
        if e = 117 then
          match getu4 rest1 with
          | none => none
          | some (rr, rest2) =>
            if 0xD800 ≤ rr ∧ rr < 0xE000 then
              match lowSurrogate rr rest2 with
              | some (dec, rest3) =>
                (parseStringAux fuel rest3).map (fun p => (appendRune dec ++ p.1, p.2))
              | none =>
                (parseStringAux fuel rest2).map (fun p => (appendRune RuneError ++ p.1, p.2))
            else
              (parseStringAux fuel rest2).map (fun p => (appendRune rr ++ p.1, p.2))
        else
          match simpleEscape e with
          | none => none
          | some b => (parseStringAux fuel rest1).map (fun p => (b :: p.1, p.2))
    else if c < 0x20 then none
    else if c < 0x80 then (parseStringAux fuel rest).map (fun p => (c :: p.1, p.2))
    else
      let d := decodeRune (c :: rest)
      (parseStringAux fuel ((c :: rest).drop d.2)).map (fun p => (appendRune d.1 ++ p.1, p.2))

/-- A JSON string literal after its opening quote. -/
def parseString (s : GoString) : Option (GoString × GoString) :=
  parseStringAux s.length s

/-- Digits following a point or an exponent mark: at least one is required;
the input after them. -/
def scanDigits1 : GoString → Option GoString
  | [] => none
  | d :: t => if isDigit d then some (t.dropWhile isDigit) else none

/-- The number grammar of the JSON scanner: optional minus, `0` or a non-zero
digit followed by digits, optional fraction, optional exponent.  The input
after the number. -/
def scanNumber (s : GoString) : Option GoString :=
  let s1 := match s with
    | 45 :: t => t
    | _ => s
  match s1 with
  | [] => none
  | c :: t =>
    let afterInt : Option GoString :=
      if c = 48 then some t
      else if 49 ≤ c ∧ c ≤ 57 then some (t.dropWhile isDigit)
      else none
    match afterInt with
    | none => none
    | some s2 =>
      let afterFrac : Option GoString :=
        match s2 with
        | 46 :: t2 => scanDigits1 t2
        | _ => some s2
      match afterFrac with
      | none => none
      | some s3 =>
        match s3 with
        | e :: t4 =>
          if e = 101 ∨ e = 69 then
            match t4 with
            | 43 :: u => scanDigits1 u
            | 45 :: u => scanDigits1 u
            | _ => scanDigits1 t4
          else some s3
        | [] => some s3

/-- The constant `maxNestingDepth` of the JSON scanner. -/
def maxNestingDepth : Nat := 10000

mutual

/-- One JSON value at nesting depth `depth`, and the input after it. -/
def parseValue : Nat → Nat → GoString → Option (JSON × GoString)
  | 0, _, _ => none
  | fuel + 1, depth, s =>
    match skipWS s with
    | [] => none
    | c :: t =>
      if c = 34 then (parseString t).map (fun p => (JSON.str p.1, p.2))
      else if c = 123 then
        if maxNestingDepth < depth + 1 then none
        else
          match skipWS t with
          | 125 :: r => some (JSON.obj [], r)
          | _ => (parseMembers fuel (depth + 1) t).map (fun p => (JSON.obj p.1, p.2))
      else if c = 91 then
        if maxNestingDepth < depth + 1 then none
        else
          match skipWS t with
          | 93 :: r => some (JSON.arr [], r)
          | _ => (parseElements fuel (depth + 1) t).map (fun p => (JSON.arr p.1, p.2))
      else if c = 116 then
        match t with
        | 114 :: 117 :: 101 :: r => some (JSON.bool true, r)
        | _ => none
      else if c = 102 then
        match t with
        | 97 :: 108 :: 115 :: 101 :: r => some (JSON.bool false, r)
        | _ => none
      else if c = 110 then
        match t with
        | 117 :: 108 :: 108 :: r => some (JSON.null, r)
        | _ => none
      else if c = 45 ∨ isDigit c then (scanNumber (c :: t)).map (fun r => (JSON.num, r))
      else none

/-- The elements of a non-empty array up to and including the closing
bracket. -/
def parseElements : Nat → Nat → GoString → Option (List JSON × GoString)
  | 0, _, _ => none
  | fuel + 1, depth, s =>
    match parseValue fuel depth s with
    | none => none
    | some (v, r) =>
      match skipWS r with
      | 44 :: r2 => (parseElements fuel depth r2).map (fun p => (v :: p.1, p.2))
      | 93 :: r2 => some ([v], r2)
      | _ => none

/-- The members of a non-empty object up to and including the closing
brace. -/
def parseMembers : Nat → Nat → GoString → Option (List (GoString × JSON) × GoString)
  | 0, _, _ => none
  | fuel + 1, depth, s =>
    match skipWS s with
    | 34 :: t =>
      match parseString t with
      | none => none
      | some (key, r) =>
        match skipWS r with
        | 58 :: r2 =>
          match parseValue fuel depth r2 with
          | none => none
          | some (v, r3) =>
            match skipWS r3 with
            | 44 :: r4 => (parseMembers fuel depth r4).map (fun p => ((key, v) :: p.1, p.2))
            | 125 :: r4 => some ([(key, v)], r4)
            | _ => none
        | _ => none
    | _ => none

end

/-- A complete JSON text: one value surrounded by optional white space (the
check `checkValid` of the decoder followed by the parse).  Every call of the
parser consumes at least one byte, so the length of the text bounds the
recursion. -/
def parseJSON (data : GoString) : Option JSON :=
  match parseValue (data.length + 1) 0 data with
  | some (v, rest) => if skipWS rest = [] then some v else none
  | none => none

/-- The function `foldRune` of the decoder on a rune from U+0080 on: the
smallest rune of its simple case-folding orbit.  Only the Kelvin sign U+212A
(orbit of `K`) and the long s U+017F (orbit of `S`) fold to an ASCII letter;
every other rune folds to a rune from U+0080 on and is left as it is here,
which decides the comparison with an ASCII field name in the same way. -/
def foldRune (r : Nat) : Nat :=
  if r = 0x212A then 75 else if r = 0x17F then 83 else r

/-- Loop of the decoder function `foldName`. -/
def foldNameAux : Nat → GoString → GoString
  | 0, _ => []
  | _ + 1, [] => []
  | fuel + 1, b :: rest =>
    if b < 0x80 then
      (if 97 ≤ b ∧ b ≤ 122 then b - 32 else b) :: foldNameAux fuel rest
    else
      let d := decodeRune (b :: rest)
      appendRune (foldRune d.1) ++ foldNameAux fuel ((b :: rest).drop d.2)

/-- The decoder function `foldName`: a key folded for case-insensitive
comparison. -/
def foldName (key : GoString) : GoString := foldNameAux key.length key

/-- Whether the object key `key` selects the struct field with JSON name
`name`: an exact match or, failing that, a match under case folding.  The
field names of `Config` and `SSHKey` stay distinct under folding, so the fold
comparison alone decides. -/
def fieldIs (name : String) (key : GoString) : Bool :=
  decide (foldName key = foldName (lit name))

/-- Store of one object member into an `SSHKey`: a string into `path` or
`alias`, a boolean into `sudo_mode`; `null` leaves the field as it is; a
member with any other key is skipped; a value of another JSON type is an
`UnmarshalTypeError` (`none`). -/
def storeField (k : SSHKey) (m : GoString × JSON) : Option SSHKey :=
  if fieldIs "path" m.1 then
    match m.2 with
    | JSON.str s => some { k with Path := s }
    | JSON.null => some k
    | _ => none
  else if fieldIs "alias" m.1 then
    match m.2 with
    | JSON.str s => some { k with Alias := s }
    | JSON.null => some k
    | _ => none
  else if fieldIs "sudo_mode" m.1 then
    match m.2 with
    | JSON.bool b => some { k with SudoMode := b }
    | JSON.null => some k
    | _ => none
  else some k

/-- Members of an object stored in order into `k`. -/
def storeFields : SSHKey → List (GoString × JSON) → Option SSHKey
  | k, [] => some k
  | k, m :: ms =>
    match storeField k m with
    | none => none
    | some k2 => storeFields k2 ms

/-- Decoding of a JSON value into the `SSHKey` `k`: an object stores its
members, `null` changes nothing, anything else is a type error. -/
def decodeKey (k : SSHKey) (v : JSON) : Option SSHKey :=
  match v with
  | JSON.obj ms => storeFields k ms
  | JSON.null => some k
  | _ => none

/-- Decoding of the elements of a JSON array into a slice whose backing array
holds `mem`: the elements of the slice followed by the stale elements that an
earlier, longer array left beyond its length.  Element `i` is decoded into
`mem[i]` when the backing array has one (only possible when the key `keys`
occurs more than once in the text) and into a zero `SSHKey` otherwise (the
memory added when the slice grows is zeroed). -/
def decodeKeys : List SSHKey → List JSON → Option (List SSHKey)
  | _, [] => some []
  | mem, x :: xs =>
    match decodeKey (mem.headD SSHKey.zero) x with
    | none => none
    | some k =>
      match decodeKeys mem.tail xs with
      | none => none
      | some ks => some (k :: ks)

/-- Store of one member of the top-level object.  The state is the value of
`config` and the stale elements its `Keys` backing array holds beyond the
length of the slice.  Under the key `keys` a non-empty array is decoded over
the backing array, and what it does not overwrite stays behind as stale
elements; an empty array makes `Keys` a fresh empty slice and `null` makes it
nil; other keys are skipped. -/
def storeConfigField (st : Config × List SSHKey) (m : GoString × JSON) :
    Option (Config × List SSHKey) :=
  if fieldIs "keys" m.1 then
    match m.2 with
    | JSON.arr [] => some ({ Keys := some [] }, [])
    | JSON.arr (x :: xs) =>
      (decodeKeys (st.1.keys ++ st.2) (x :: xs)).map
        (fun ks => ({ Keys := some ks }, (st.1.keys ++ st.2).drop ks.length))
    | JSON.null => some ({ Keys := none }, [])
    | _ => none
  else some st

/-- Members of the top-level object stored in order. -/
def storeConfigFields : Config × List SSHKey → List (GoString × JSON) →
    Option (Config × List SSHKey)
  | st, [] => some st
  | st, m :: ms =>
    match storeConfigField st m with
    | none => none
    | some st2 => storeConfigFields st2 ms

/-- The call `json.Unmarshal(data, &config)` with `config` holding `c` (its
`Keys` slice without spare capacity, as for the zero value the program starts
from): `some` of the new value of `config` when it returns nil, `none` when it
returns an error (malformed text or a value of the wrong JSON type). -/
def Unmarshal (data : GoString) (c : Config) : Option Config :=
  match parseJSON data with
  | none => none
  | some (JSON.obj ms) => (storeConfigFields (c, []) ms).map (fun st => st.1)
  | some JSON.null => some c
  | some _ => none

/-! ## Environment and trace -/

/-- An error value, as far as the program looks at it. -/
inductive GoError where
  | eof
  | os (text : GoString)
  | json
  deriving DecidableEq, Repr

/-- Result of `os.ReadFile(configPath)`. -/
inductive ReadFileResult where
  | notExist
  | failed (err : GoError)
  | contents (data : GoString)
  deriving DecidableEq, Repr

/-- Result of `os.Stat(keyPath)`: success, an error for which
`os.IsNotExist` holds, or any other error (permission denied, a path
component that is not a directory, a name that is too long). -/
inductive StatResult where
  | found
  | notExist
  | failed (err : GoError)
  deriving DecidableEq, Repr

/-- What the operating system answers during one run of a command. -/
structure Env where
  /-- Error of `os.MkdirAll(configDir, 0755)`, if any. -/
  mkdirAll : Option GoError
  /-- Result of reading the configuration file. -/
  readFile : ReadFileResult
  /-- The bytes available on standard input. -/
  stdin : GoString
  /-- Result of `os.Stat` on a path. -/
  stat : GoString → StatResult
  /-- Error of `os.WriteFile(configPath, data, 0644)`, if any. -/
  writeFile : GoString → Option GoError
  /-- Error of running `ssh-add -D`, if any (a non-zero exit is an error). -/
  runClear : Option GoError
  /-- Error of running the command that adds the key, if any. -/
  runAdd : List GoString → Option GoError

/-- An argument of a `Printf` call. -/
inductive Arg where
  | str (s : GoString)
  | int (n : Int)
  | err (e : GoError)
  deriving DecidableEq, Repr

/-- An observable call made by the program. -/
inductive Event where
  /-- The calls `fmt.Print(text)` and `fmt.Println` (with the newline in `text`). -/
  | print (text : String)
  /-- The call `fmt.Printf(format, args...)`. -/
  | printf (format : String) (args : List Arg)
  /-- The call `os.WriteFile(configPath, data, 0644)`. -/
  | writeFile (data : GoString)
  /-- The call `exec.Command(argv...).Run()`. -/
  | run (argv : List GoString)
  /-- The call `os.Exit(code)`. -/
  | exit (code : Nat)
  /-- A run-time crash of the Go program (slice index out of range). -/
  | crash
  deriving DecidableEq, Repr

/-- The method `ReadString` with delimiter newline of a `bufio.Reader` on
standard input: the line including its newline and the input left, or `none`
(the error `io.EOF`) when the input ends before a newline. -/
def readString : GoString → Option (GoString × GoString)
  | [] => none
  | c :: rest =>
    if c = 10 then some ([10], rest)
    else (readString rest).map (fun p => (c :: p.1, p.2))

/-! ## The program -/

/-- The function `loadConfig`, run with the global `config` holding `c`: the
calls it makes and the new value of `config`, or `none` when the process
exits. -/
def loadConfig (env : Env) (c : Config) : List Event × Option Config :=
  match env.mkdirAll with
  | some e => ([Event.printf "Error creating config directory: %v\n" [Arg.err e], Event.exit 1], none)
  | none =>
    match env.readFile with
    | ReadFileResult.notExist => ([], some { Keys := some [] })
    | ReadFileResult.failed e =>
      ([Event.printf "Error reading config file: %v\n" [Arg.err e], Event.exit 1], none)
    | ReadFileResult.contents data =>
      match Unmarshal data c with
      | none =>
        ([Event.printf "Error parsing config file: %v\n" [Arg.err GoError.json], Event.exit 1], none)
      | some c2 => ([], some c2)

/-- The function `saveConfig`, run with the global `config` holding `c`: the
call it makes and the error it returns, if any.  `json.MarshalIndent` cannot
fail on a `Config`. -/
def saveConfig (env : Env) (c : Config) : List Event × Option GoError :=
  ([Event.writeFile (MarshalIndent c)], env.writeFile (MarshalIndent c))

/-- The duplicate check of `setupCommand`: whether some key of the store has
the alias `a` (byte-wise string equality). -/
def aliasExists (keys : List SSHKey) (a : GoString) : Bool :=
  keys.any (fun key => decide (key.Alias = a))

/-- The record `newKey` that `setupCommand` builds from the three answers:
the trimmed path, the trimmed alias or (when that is empty) the base name of
the path, and the sudo flag. -/
def newKey (lower : Nat → Nat) (pathLine aliasLine sudoLine : GoString) : SSHKey :=
  let keyPath := TrimSpace pathLine
  let a := TrimSpace aliasLine
  { Path := keyPath,
    Alias := if a = [] then Base keyPath else a,
    SudoMode := decide (ToLower lower (TrimSpace sudoLine) = lit "y") }

/-- Outcome of a command: the calls made, in order, and the value of the
global `config` at the end. -/
structure Outcome where
  events : List Event
  config : Config

/-- The function `setupCommand`. -/
def setupCommand (lower : Nat → Nat) (env : Env) : Outcome :=
  match loadConfig env Config.zero with
  | (ev, none) => { events := ev, config := Config.zero }
  | (ev, some config) =>
    let ev1 := ev ++ [Event.print "Enter the path to your SSH key file: "]
    match readString env.stdin with
    | none =>
      { events := ev1 ++ [Event.printf "Error reading input: %v\n" [Arg.err GoError.eof]],
        config := config }
    | some (pathLine, in1) =>
      let keyPath := TrimSpace pathLine
      if env.stat keyPath = StatResult.notExist then
        { events := ev1 ++ [Event.printf "Error: SSH key file not found at %s\n" [Arg.str keyPath]],
          config := config }
      else
        let ev2 := ev1 ++
          [Event.print "Enter an alias for this key (optional, press Enter to skip): "]
        match readString in1 with
        | none =>
          { events := ev2 ++ [Event.printf "Error reading input: %v\n" [Arg.err GoError.eof]],
            config := config }
        | some (aliasLine, in2) =>
          let ev3 := ev2 ++ [Event.print "Use sudo mode for this key? (y/N): "]
          match readString in2 with
          | none =>
            { events := ev3 ++ [Event.printf "Error reading input: %v\n" [Arg.err GoError.eof]],
              config := config }
          | some (sudoLine, _) =>
            let key := newKey lower pathLine aliasLine sudoLine
            if aliasExists config.keys key.Alias then
              { events := ev3 ++
                  [Event.printf "Error: Alias '%s' already exists. Please choose a different alias.\n"
                    [Arg.str key.Alias]],
                config := config }
            else
              let config2 : Config := { Keys := some (config.keys ++ [key]) }
              match saveConfig env config2 with
              | (evs, some e) =>
                { events := ev3 ++ evs ++
                    [Event.printf "Error saving configuration: %v\n" [Arg.err e]],
                  config := config2 }
              | (evs, none) =>
                { events := ev3 ++ evs ++
                    [Event.printf "Successfully registered SSH key: %s (%s)\n"
                      [Arg.str key.Alias, Arg.str key.Path]],
                  config := config2 }

/-- The text `sudoText` printed after the alias of a key. -/
def sudoText (key : SSHKey) : GoString := if key.SudoMode then lit " (sudo)" else []

/-- The display loop of `switchCommand`: one `Printf` per key, numbered from
`i + 1`. -/
def printKeys : Nat → List SSHKey → List Event
  | _, [] => []
  | i, key :: rest =>
    Event.printf "%d. %s%s - %s\n"
      [Arg.int (i + 1), Arg.str key.Alias, Arg.str (sudoText key), Arg.str key.Path] ::
    printKeys (i + 1) rest

/-- The display loop of `listCommand`: one `Printf` per key, numbered from
`i + 1`. -/
def listKeys : Nat → List SSHKey → List Event
  | _, [] => []
  | i, key :: rest =>
    Event.printf "%d. %s%s\n   Path: %s\n\n"
      [Arg.int (i + 1), Arg.str key.Alias, Arg.str (sudoText key), Arg.str key.Path] ::
    listKeys (i + 1) rest

/-- Argument vector of the command that adds the key: through `sudo` when
the key is in sudo mode, directly otherwise. -/
def addArgv (key : SSHKey) : List GoString :=
  if key.SudoMode then [lit "sudo", lit "ssh-add", key.Path]
  else [lit "ssh-add", key.Path]

/-- The function `switchCommand`. -/
def switchCommand (env : Env) : Outcome :=
  match loadConfig env Config.zero with
  | (ev, none) => { events := ev, config := Config.zero }
  | (ev, some config) =>
    if config.keys.length = 0 then
      { events := ev ++
          [Event.print "No SSH keys registered. Use 'switchssh setup' to add your first key.\n"],
        config := config }
    else
      let ev1 := ev ++ [Event.print "Available SSH keys:\n"] ++ printKeys 0 config.keys ++
        [Event.print "\nSelect a key (enter number): "]
      match readString env.stdin with
      | none =>
        { events := ev1 ++ [Event.printf "Error reading input: %v\n" [Arg.err GoError.eof]],
          config := config }
      | some (selection, _) =>
        match SscanfInt (TrimSpace selection) with
        | none =>
          { events := ev1 ++ [Event.print "Invalid selection. Please enter a valid number.\n"],
            config := config }
        | some index =>
          if index < 1 ∨ (config.keys.length : Int) < index then
            { events := ev1 ++ [Event.print "Invalid selection. Please enter a valid number.\n"],
              config := config }
          else
            match config.keys.get? (index - 1).toNat with
            | none => { events := ev1 ++ [Event.crash], config := config }
            | some selectedKey =>
              let ev2 := ev1 ++ [Event.print "Clearing existing SSH keys...\n",
                Event.run [lit "ssh-add", lit "-D"]]
              let ev3 := match env.runClear with
                | some e =>
                  ev2 ++ [Event.printf "Warning: Could not clear existing SSH keys: %v\n" [Arg.err e]]
                | none => ev2
              let ev4 := ev3 ++ [Event.printf "Adding SSH key: %s\n" [Arg.str selectedKey.Alias],
                Event.run (addArgv selectedKey)]
              match env.runAdd (addArgv selectedKey) with
              | some e =>
                { events := ev4 ++ [Event.printf "Error adding SSH key: %v\n" [Arg.err e]],
                  config := config }
              | none =>
                { events := ev4 ++
                    [Event.printf "Successfully switched to SSH key: %s\n"
                      [Arg.str selectedKey.Alias]],
                  config := config }

/-- The function `listCommand`. -/
def listCommand (env : Env) : Outcome :=
  match loadConfig env Config.zero with
  | (ev, none) => { events := ev, config := Config.zero }
  | (ev, some config) =>
    if config.keys.length = 0 then
      { events := ev ++
          [Event.print "No SSH keys registered. Use 'switchssh setup' to add your first key.\n"],
        config := config }
    else
      { events := ev ++ [Event.print "Registered SSH keys:\n", Event.print "====================\n"] ++
          listKeys 0 config.keys,
        config := config }

/-! ## Observations on a trace -/

/-- The data of the `os.WriteFile` calls of a trace, in order. -/
def writes : List Event → List GoString
  | [] => []
  | Event.writeFile data :: rest => data :: writes rest
  | _ :: rest => writes rest

/-- The argument vectors of the external commands run in a trace, in order. -/
def commands : List Event → List (List GoString)
  | [] => []
  | Event.run argv :: rest => argv :: commands rest
  | _ :: rest => commands rest

/-- An environment in which every operating-system call succeeds: the
configuration file holds `file`, standard input holds `input`, every path
exists. -/
def okEnv (file : ReadFileResult) (input : GoString) : Env :=
  { mkdirAll := none,
    readFile := file,
    stdin := input,
    stat := fun _ => StatResult.found,
    writeFile := fun _ => none,
    runClear := none,
    runAdd := fun _ => none }

/-- A configuration file with the single key `/tmp/key1` under alias `key1`. -/
def oneKeyFile : GoString :=
  MarshalIndent { Keys := some [{ Path := lit "/tmp/key1", Alias := lit "key1", SudoMode := false }] }


/-- An environment in which `os.Stat` fails with an error other than
not-exist (permission denied on the directory of the key) and everything else
succeeds; no configuration file, the answers `/root/key`, `k`, `n`. -/
def deniedEnv : Env :=
  { okEnv ReadFileResult.notExist (lit "/root/key\nk\nn\n") with
    stat := fun _ => StatResult.failed (GoError.os (lit "permission denied")) }

/-- The words of the specification, "parseable as an integer": the whole text
is an optional sign followed by one or more decimal digits. -/
def wholeInteger (s : GoString) : Bool :=
  let body := match s with
    | 43 :: t => t
    | 45 :: t => t
    | _ => s
  !body.isEmpty && body.all isDigit

/-- A configuration file with two keys, the second in sudo mode. -/
def twoKeyFile : GoString :=
  MarshalIndent { Keys := some [{ Path := lit "/tmp/key1", Alias := lit "key1", SudoMode := false },
    { Path := lit "/tmp/key2", Alias := lit "work", SudoMode := true }] }

/-- The JSON value `MarshalIndent` writes for one key. -/
def keyJSON (k : SSHKey) : JSON :=
  JSON.obj [(lit "path", JSON.str k.Path), (lit "alias", JSON.str k.Alias),
    (lit "sudo_mode", JSON.bool k.SudoMode)]

/-- The JSON value `MarshalIndent` writes for a configuration. -/
def configJSON (c : Config) : JSON :=
  JSON.obj [(lit "keys",
    match c.Keys with
    | none => JSON.null
    | some ks => JSON.arr (ks.map keyJSON))]

/-- A store whose one key has a path that is not valid UTF-8 (the single byte
`0xFF`; file names on Unix are arbitrary byte strings). -/
def invalidPathConfig : Config :=
  { Keys := some [{ Path := [0xFF], Alias := lit "k", SudoMode := false }] }

/-- The integer at the start of a text, in the words of the amended selection
claim: an optional sign followed by the longest run of decimal digits (at
least one), with its value; `none` when the text does not start that way. -/
def leadingInteger (t : GoString) : Option Int :=
  let signed : Bool × GoString :=
    match t with
    | 43 :: u => (false, u)
    | 45 :: u => (true, u)
    | _ => (false, t)
  let digits := signed.2.takeWhile isDigit
  if digits = [] then none
  else
    let n : Nat := digits.foldl (fun acc d => acc * 10 + (d - 48)) 0
    some (if signed.1 then -(n : Int) else (n : Int))

set_option maxRecDepth 100000

theorem loadConfig_events (env : Env) (c c2 : Config) (ev : List Event)
    (h : loadConfig env c = (ev, some c2)) : ev = [] := by
  unfold loadConfig at h
  split at h
  · simp at h
  · split at h
    · simp at h; exact h.1
    · simp at h
    · split at h
      · simp at h
      · simp at h; exact h.1

theorem commands_append (a b : List Event) : commands (a ++ b) = commands a ++ commands b := by
  induction a with
  | nil => rfl
  | cons e t ih => cases e <;> simp [commands, ih]

theorem aliasExists_iff (keys : List SSHKey) (a : GoString) :
    aliasExists keys a = true ↔ ∃ k ∈ keys, k.Alias = a := by
  simp [aliasExists]

/-- What `setupCommand` does once the configuration is loaded, the three
answers are read and the key file passed the existence check. -/
theorem setupCommand_add (lower : Nat → Nat) (env : Env) (ev : List Event) (config : Config)
    (pathLine in1 aliasLine in2 sudoLine in3 : GoString)
    (hload : loadConfig env Config.zero = (ev, some config))
    (hpath : readString env.stdin = some (pathLine, in1))
    (hstat : env.stat (TrimSpace pathLine) ≠ StatResult.notExist)
    (halias : readString in1 = some (aliasLine, in2))
    (hsudo : readString in2 = some (sudoLine, in3)) :
    setupCommand lower env =
      if aliasExists config.keys (newKey lower pathLine aliasLine sudoLine).Alias then
        { events := [Event.print "Enter the path to your SSH key file: ",
            Event.print "Enter an alias for this key (optional, press Enter to skip): ",
            Event.print "Use sudo mode for this key? (y/N): ",
            Event.printf "Error: Alias '%s' already exists. Please choose a different alias.\n"
              [Arg.str (newKey lower pathLine aliasLine sudoLine).Alias]],
          config := config }
      else
        { events := [Event.print "Enter the path to your SSH key file: ",
            Event.print "Enter an alias for this key (optional, press Enter to skip): ",
            Event.print "Use sudo mode for this key? (y/N): ",
            Event.writeFile (MarshalIndent
              { Keys := some (config.keys ++ [newKey lower pathLine aliasLine sudoLine]) }),
            match env.writeFile (MarshalIndent
              { Keys := some (config.keys ++ [newKey lower pathLine aliasLine sudoLine]) }) with
            | some e => Event.printf "Error saving configuration: %v\n" [Arg.err e]
            | none => Event.printf "Successfully registered SSH key: %s (%s)\n"
                [Arg.str (newKey lower pathLine aliasLine sudoLine).Alias,
                 Arg.str (newKey lower pathLine aliasLine sudoLine).Path]],
          config := { Keys := some (config.keys ++ [newKey lower pathLine aliasLine sudoLine]) } } := by
  have hev := loadConfig_events env _ _ _ hload
  subst hev
  simp only [setupCommand, hload, hpath, hstat, halias, hsudo, if_false, List.nil_append,
    saveConfig]
  split
  · rfl
  · cases env.writeFile _ <;> simp

/-- C2. Alias uniqueness in the add step of `setupCommand`: once the three
answers are read and the key file passed the existence check, a new record
whose alias equals (byte for byte) the alias of an existing record makes the
command end with the duplicate-alias message, leaves the in-memory store as
loaded and writes no file; a record whose alias equals no existing alias is
appended at the end of the sequence, the earlier records unchanged. -/
theorem setup_alias_uniqueness (lower : Nat → Nat) (env : Env) (ev : List Event)
    (config : Config) (pathLine in1 aliasLine in2 sudoLine in3 : GoString)
    (hload : loadConfig env Config.zero = (ev, some config))
    (hpath : readString env.stdin = some (pathLine, in1))
    (hstat : env.stat (TrimSpace pathLine) ≠ StatResult.notExist)
    (halias : readString in1 = some (aliasLine, in2))
    (hsudo : readString in2 = some (sudoLine, in3)) :
    ((∃ k ∈ config.keys, k.Alias = (newKey lower pathLine aliasLine sudoLine).Alias) →
      (setupCommand lower env).config = config ∧
      writes (setupCommand lower env).events = [] ∧
      (setupCommand lower env).events.getLast? = some
        (Event.printf "Error: Alias '%s' already exists. Please choose a different alias.\n"
          [Arg.str (newKey lower pathLine aliasLine sudoLine).Alias])) ∧
    ((∀ k ∈ config.keys, k.Alias ≠ (newKey lower pathLine aliasLine sudoLine).Alias) →
      (setupCommand lower env).config.keys =
        config.keys ++ [newKey lower pathLine aliasLine sudoLine]) := by
  rw [setupCommand_add lower env ev config pathLine in1 aliasLine in2 sudoLine in3
    hload hpath hstat halias hsudo]
  constructor
  · intro hdup
    rw [if_pos ((aliasExists_iff _ _).2 hdup)]
    simp [writes]
  · intro hnew
    have hno : ¬ aliasExists config.keys (newKey lower pathLine aliasLine sudoLine).Alias = true := by
      rw [aliasExists_iff]
      rintro ⟨k, hk, he⟩
      exact hnew k hk he
    rw [if_neg hno]
    simp [Config.keys]

/-- C2, at the store with the one key `key1` and the answers `/tmp/other`,
`key1`, `n`: the command ends with the duplicate-alias message. -/
theorem setup_alias_uniqueness_witness :
    (setupCommand id (okEnv (ReadFileResult.contents oneKeyFile) (lit "/tmp/other\nkey1\nn\n"))).config =
        { Keys := some [{ Path := lit "/tmp/key1", Alias := lit "key1", SudoMode := false }] } ∧
      writes (setupCommand id
        (okEnv (ReadFileResult.contents oneKeyFile) (lit "/tmp/other\nkey1\nn\n"))).events = [] ∧
      (setupCommand id
        (okEnv (ReadFileResult.contents oneKeyFile) (lit "/tmp/other\nkey1\nn\n"))).events.getLast? =
        some (Event.printf "Error: Alias '%s' already exists. Please choose a different alias.\n"
          [Arg.str (newKey id (lit "/tmp/other\n") (lit "key1\n") (lit "n\n")).Alias]) :=
  (setup_alias_uniqueness id (okEnv (ReadFileResult.contents oneKeyFile) (lit "/tmp/other\nkey1\nn\n"))
    [] { Keys := some [{ Path := lit "/tmp/key1", Alias := lit "key1", SudoMode := false }] }
    (lit "/tmp/other\n") (lit "key1\nn\n") (lit "key1\n") (lit "n\n") (lit "n\n") []
    (by decide) (by decide) (by decide) (by decide) (by decide)).1
    ⟨{ Path := lit "/tmp/key1", Alias := lit "key1", SudoMode := false }, by decide, by decide⟩

theorem setupCommand_notExist (lower : Nat → Nat) (env : Env) (ev : List Event) (config : Config)
    (pathLine in1 : GoString)
    (hload : loadConfig env Config.zero = (ev, some config))
    (hpath : readString env.stdin = some (pathLine, in1))
    (hstat : env.stat (TrimSpace pathLine) = StatResult.notExist) :
    setupCommand lower env =
      { events := [Event.print "Enter the path to your SSH key file: ",
          Event.printf "Error: SSH key file not found at %s\n" [Arg.str (TrimSpace pathLine)]],
        config := config } := by
  have hev := loadConfig_events env _ _ _ hload
  subst hev
  simp only [setupCommand, hload, hpath, hstat, if_true, List.nil_append, List.singleton_append]

theorem setupCommand_appended (lower : Nat → Nat) (env : Env) (ev : List Event) (config : Config)
    (pathLine in1 aliasLine in2 sudoLine in3 : GoString) (key : SSHKey)
    (hload : loadConfig env Config.zero = (ev, some config))
    (hpath : readString env.stdin = some (pathLine, in1))
    (hstat : env.stat (TrimSpace pathLine) ≠ StatResult.notExist)
    (halias : readString in1 = some (aliasLine, in2))
    (hsudo : readString in2 = some (sudoLine, in3))
    (hadd : (setupCommand lower env).config.keys = config.keys ++ [key]) :
    key = newKey lower pathLine aliasLine sudoLine := by
  rw [setupCommand_add lower env ev config pathLine in1 aliasLine in2 sudoLine in3
    hload hpath hstat halias hsudo] at hadd
  split at hadd
  · simp at hadd
  · simpa [Config.keys, eq_comm] using hadd

/-! ### `filepath.Base` returns the last element of the path -/

theorem dropWhile_replicate_append (p : Nat → Bool) (a n : Nat) (l : GoString) (h : p a = true) :
    (List.replicate n a ++ l).dropWhile p = l.dropWhile p := by
  induction n with
  | zero => rfl
  | succ n ih =>
    rw [List.replicate_succ, List.cons_append, List.dropWhile_cons_of_pos h]
    exact ih

theorem takeWhile_append_stop (p : Nat → Bool) (l m : GoString) (hl : ∀ a ∈ l, p a = true)
    (hm : m = [] ∨ ∃ b t, m = b :: t ∧ p b = false) :
    (l ++ m).takeWhile p = l := by
  induction l with
  | nil =>
    rcases hm with rfl | ⟨b, t, rfl, hb⟩
    · rfl
    · simp [List.takeWhile, hb]
  | cons x l ih =>
    rw [List.cons_append, List.takeWhile_cons_of_pos (hl x (List.mem_cons_self _ _))]
    rw [ih (fun a ha => hl a (List.mem_cons_of_mem _ ha))]

/-- C4. Default alias: once the three answers are read and the key file
passed the existence check, a record that `setupCommand` appends to the store
has the trimmed path; its alias is exactly the trimmed alias answer when that
is not empty, and the base name of the path when it is: for every path, the
last element `name` of the path (what follows the last slash before `name`,
trailing slashes dropped), `/` for a path of slashes only and `.` for the
empty path. -/
theorem setup_default_alias (lower : Nat → Nat) (env : Env) (ev : List Event)
    (config : Config) (pathLine in1 aliasLine in2 sudoLine in3 : GoString) (key : SSHKey)
    (hload : loadConfig env Config.zero = (ev, some config))
    (hpath : readString env.stdin = some (pathLine, in1))
    (hstat : env.stat (TrimSpace pathLine) ≠ StatResult.notExist)
    (halias : readString in1 = some (aliasLine, in2))
    (hsudo : readString in2 = some (sudoLine, in3))
    (hadd : (setupCommand lower env).config.keys = config.keys ++ [key]) :
    key.Path = TrimSpace pathLine ∧
    (TrimSpace aliasLine = [] → key.Alias = Base (TrimSpace pathLine)) ∧
    (TrimSpace aliasLine ≠ [] → key.Alias = TrimSpace aliasLine) ∧
    (TrimSpace aliasLine = [] → ∀ (dir name : GoString) (n : Nat), name ≠ [] → 47 ∉ name →
      TrimSpace pathLine = dir ++ [47] ++ name ++ List.replicate n 47 → key.Alias = name) ∧
    (TrimSpace aliasLine = [] → ∀ (name : GoString) (n : Nat), name ≠ [] → 47 ∉ name →
      TrimSpace pathLine = name ++ List.replicate n 47 → key.Alias = name) ∧
    (TrimSpace aliasLine = [] → ∀ n : Nat,
      TrimSpace pathLine = List.replicate (n + 1) 47 → key.Alias = [47]) ∧
    (TrimSpace aliasLine = [] → TrimSpace pathLine = [] → key.Alias = [46]) := by
  rw [setupCommand_appended lower env ev config pathLine in1 aliasLine in2 sudoLine in3 key
    hload hpath hstat halias hsudo hadd]
  have hb : TrimSpace aliasLine = [] →
      (newKey lower pathLine aliasLine sudoLine).Alias = Base (TrimSpace pathLine) := by
    intro h
    simp [newKey, h]
  have hlast : ∀ (pre name : GoString) (n : Nat), name ≠ [] → 47 ∉ name →
      (pre = [] ∨ ∃ d, pre = d ++ [47]) →
      Base (pre ++ name ++ List.replicate n 47) = name := by
    intro pre name n hne hns hpre
    have hnonempty : pre ++ name ++ List.replicate n 47 ≠ [] := by
      intro h
      have := congrArg List.length h
      simp only [List.length_append, List.length_nil] at this
      exact hne (List.length_eq_zero.1 (by omega))
    have hrev : (pre ++ name ++ List.replicate n 47).reverse =
        List.replicate n 47 ++ (name.reverse ++ pre.reverse) := by
      simp [List.reverse_append, List.reverse_replicate]
    obtain ⟨x, rest, hx⟩ : ∃ x rest, name.reverse = x :: rest := by
      rcases hr : name.reverse with _ | ⟨x, rest⟩
      · exact absurd (List.reverse_eq_nil_iff.1 hr) hne
      · exact ⟨x, rest, rfl⟩
    have hx47 : x ≠ 47 := by
      intro h
      apply hns
      have : x ∈ name.reverse := by rw [hx]; exact List.mem_cons_self _ _
      rw [← h]
      exact List.mem_reverse.1 this
    have hdrop : (List.replicate n 47 ++ (name.reverse ++ pre.reverse)).dropWhile
        (fun c => decide (c = 47)) = name.reverse ++ pre.reverse := by
      rw [dropWhile_replicate_append _ 47 n _ (by simp), hx, List.cons_append,
        List.dropWhile_cons_of_neg (by simpa using hx47)]
    have htake : (name.reverse ++ pre.reverse).takeWhile (fun c => decide (c ≠ 47)) =
        name.reverse := by
      apply takeWhile_append_stop
      · intro a ha
        have ha2 : a ∈ name := List.mem_reverse.1 ha
        have : a ≠ 47 := fun h => hns (h ▸ ha2)
        simpa using this
      · rcases hpre with rfl | ⟨d, rfl⟩
        · left; rfl
        · right
          exact ⟨47, d.reverse, by simp, by simp⟩
    unfold Base
    rw [if_neg hnonempty]
    simp only [hrev, hdrop, List.reverse_reverse, htake]
    rw [if_neg hne]
  have hslashes : ∀ n : Nat, Base (List.replicate (n + 1) 47) = [47] := by
    intro n
    have h := dropWhile_replicate_append (fun c => decide (c = 47)) 47 (n + 1) [] (by simp)
    rw [List.append_nil] at h
    unfold Base
    rw [if_neg (by simp [List.replicate_succ])]
    simp only [List.reverse_replicate, h]
    rfl
  refine ⟨rfl, hb, ?_, ?_, ?_, ?_, ?_⟩
  · intro h
    simp [newKey, h]
  · intro h dir name n hne hns hp
    rw [hb h, hp]
    exact hlast (dir ++ [47]) name n hne hns (Or.inr ⟨dir, rfl⟩)
  · intro h name n hne hns hp
    rw [hb h, hp]
    exact hlast [] name n hne hns (Or.inl rfl)
  · intro h n hp
    rw [hb h, hp]
    exact hslashes n
  · intro h hp
    rw [hb h, hp]
    rfl

/-- C4, at the path `/home/u/.ssh/id_ed25519` with an empty alias answer and
no configuration file: the record appended has the alias `id_ed25519`, the
last element of the path. -/
theorem setup_default_alias_witness :
    (setupCommand id (okEnv ReadFileResult.notExist (lit "/home/u/.ssh/id_ed25519\n\nn\n"))).config.keys =
        [] ++ [{ Path := lit "/home/u/.ssh/id_ed25519", Alias := lit "id_ed25519", SudoMode := false }] ∧
      TrimSpace (lit "\n") = [] ∧
      TrimSpace (lit "/home/u/.ssh/id_ed25519\n") =
        lit "/home/u/.ssh" ++ [47] ++ lit "id_ed25519" ++ List.replicate 0 47 ∧
      ({ Path := lit "/home/u/.ssh/id_ed25519", Alias := lit "id_ed25519",
         SudoMode := false } : SSHKey).Alias = lit "id_ed25519" :=
  ⟨by decide, by decide, by decide,
    (setup_default_alias id (okEnv ReadFileResult.notExist (lit "/home/u/.ssh/id_ed25519\n\nn\n"))
      [] { Keys := some [] } (lit "/home/u/.ssh/id_ed25519\n") (lit "\nn\n") (lit "\n") (lit "n\n")
      (lit "n\n") []
      { Path := lit "/home/u/.ssh/id_ed25519", Alias := lit "id_ed25519", SudoMode := false }
      (by decide) (by decide) (by decide) (by decide) (by decide) (by decide)).2.2.2.1 (by decide)
      (lit "/home/u/.ssh") (lit "id_ed25519") 0 (by decide) (by decide) (by decide)⟩

/-- C8 as stated fails: when `os.Stat` fails with an error other than
not-exist (here: permission denied), `setupCommand` does not stop: it appends
the record and writes the configuration file. -/
theorem setup_stat_failure_counterexample :
    deniedEnv.stat (TrimSpace (lit "/root/key\n")) ≠ StatResult.found ∧
    (setupCommand id deniedEnv).config.keys =
      [{ Path := lit "/root/key", Alias := lit "k", SudoMode := false }] ∧
    writes (setupCommand id deniedEnv).events ≠ [] ∧
    Event.printf "Error: SSH key file not found at %s\n" [Arg.str (lit "/root/key")] ∉
      (setupCommand id deniedEnv).events := by
  decide

/-- C8, amended. Key file validation in `setupCommand`: when the stat check on
the entered (trimmed) path fails with a not-exist error, the command ends with
the file-not-found message, the in-memory store stays as loaded and nothing is
written; so a record is only ever added, and the file only ever written, for a
path whose stat check did not report not-exist. -/
theorem setup_missing_key_file (lower : Nat → Nat) (env : Env) (ev : List Event)
    (config : Config) (pathLine in1 : GoString)
    (hload : loadConfig env Config.zero = (ev, some config))
    (hpath : readString env.stdin = some (pathLine, in1)) :
    (env.stat (TrimSpace pathLine) = StatResult.notExist →
      (setupCommand lower env).events.getLast? = some
        (Event.printf "Error: SSH key file not found at %s\n" [Arg.str (TrimSpace pathLine)]) ∧
      (setupCommand lower env).config = config ∧
      writes (setupCommand lower env).events = []) ∧
    ((setupCommand lower env).config ≠ config ∨ writes (setupCommand lower env).events ≠ [] →
      env.stat (TrimSpace pathLine) ≠ StatResult.notExist) := by
  have key : env.stat (TrimSpace pathLine) = StatResult.notExist →
      (setupCommand lower env).events.getLast? = some
        (Event.printf "Error: SSH key file not found at %s\n" [Arg.str (TrimSpace pathLine)]) ∧
      (setupCommand lower env).config = config ∧
      writes (setupCommand lower env).events = [] := by
    intro hstat
    rw [setupCommand_notExist lower env ev config pathLine in1 hload hpath hstat]
    simp [writes]
  refine ⟨key, ?_⟩
  intro h hstat
  obtain ⟨-, h2, h3⟩ := key hstat
  rcases h with h | h
  · exact h h2
  · exact h h3

/-- C8, amended, with no configuration file and a path that does not exist:
the command ends with the file-not-found message and writes nothing. -/
theorem setup_missing_key_file_witness :
    (setupCommand id { okEnv ReadFileResult.notExist (lit "/tmp/nokey\n") with
        stat := fun _ => StatResult.notExist }).events.getLast? = some
        (Event.printf "Error: SSH key file not found at %s\n"
          [Arg.str (TrimSpace (lit "/tmp/nokey\n"))]) ∧
      (setupCommand id { okEnv ReadFileResult.notExist (lit "/tmp/nokey\n") with
        stat := fun _ => StatResult.notExist }).config = { Keys := some [] } ∧
      writes (setupCommand id { okEnv ReadFileResult.notExist (lit "/tmp/nokey\n") with
        stat := fun _ => StatResult.notExist }).events = [] :=
  (setup_missing_key_file id { okEnv ReadFileResult.notExist (lit "/tmp/nokey\n") with
      stat := fun _ => StatResult.notExist } [] { Keys := some [] } (lit "/tmp/nokey\n") []
    (by decide) (by decide)).1 (by decide)

theorem printKeys_get? (keys : List SSHKey) (start i : Nat) (key : SSHKey)
    (h : keys.get? i = some key) :
    (printKeys start keys).get? i = some (Event.printf "%d. %s%s - %s\n"
      [Arg.int ((start + i : Nat) + 1), Arg.str key.Alias, Arg.str (sudoText key),
        Arg.str key.Path]) := by
  induction keys generalizing start i with
  | nil => simp at h
  | cons k rest ih =>
    cases i with
    | zero =>
      simp at h
      subst h
      simp [printKeys]
    | succ j =>
      rw [List.get?_cons_succ] at h
      have := ih (start + 1) j h
      simp only [printKeys, List.get?_cons_succ]
      rw [this]
      have e : start + 1 + j = start + (j + 1) := by omega
      rw [e]

theorem listKeys_get? (keys : List SSHKey) (start i : Nat) (key : SSHKey)
    (h : keys.get? i = some key) :
    (listKeys start keys).get? i = some (Event.printf "%d. %s%s\n   Path: %s\n\n"
      [Arg.int ((start + i : Nat) + 1), Arg.str key.Alias, Arg.str (sudoText key),
        Arg.str key.Path]) := by
  induction keys generalizing start i with
  | nil => simp at h
  | cons k rest ih =>
    cases i with
    | zero =>
      simp at h
      subst h
      simp [listKeys]
    | succ j =>
      rw [List.get?_cons_succ] at h
      have := ih (start + 1) j h
      simp only [listKeys, List.get?_cons_succ]
      rw [this]
      have e : start + 1 + j = start + (j + 1) := by omega
      rw [e]

theorem printKeys_length (keys : List SSHKey) (start : Nat) :
    (printKeys start keys).length = keys.length := by
  induction keys generalizing start with
  | nil => rfl
  | cons k rest ih => simp [printKeys, ih]

theorem printKeys_format (keys : List SSHKey) (start : Nat) (e : Event)
    (h : e ∈ printKeys start keys) : ∃ args, e = Event.printf "%d. %s%s - %s\n" args := by
  induction keys generalizing start with
  | nil => simp [printKeys] at h
  | cons k rest ih =>
    simp only [printKeys, List.mem_cons] at h
    rcases h with h | h
    · exact ⟨_, h⟩
    · exact ih _ h

theorem commands_printKeys (keys : List SSHKey) (start : Nat) :
    commands (printKeys start keys) = [] := by
  induction keys generalizing start with
  | nil => rfl
  | cons k rest ih => simp [printKeys, commands, ih]

/-- The selected record exists: an index within `[1, len]` is a position of
the slice. -/
theorem selected_exists (keys : List SSHKey) (index : Int)
    (h1 : 1 ≤ index) (h2 : index ≤ (keys.length : Int)) :
    ∃ key, keys.get? (index - 1).toNat = some key := by
  have hlt : (index - 1).toNat < keys.length := by omega
  exact ⟨keys.get ⟨_, hlt⟩, List.get?_eq_get hlt⟩

/-- What `switchCommand` does on an invalid selection. -/
theorem switchCommand_invalid (env : Env) (ev : List Event) (config : Config)
    (selection rest : GoString)
    (hload : loadConfig env Config.zero = (ev, some config))
    (hne : config.keys ≠ [])
    (hread : readString env.stdin = some (selection, rest))
    (hbad : SscanfInt (TrimSpace selection) = none ∨
      ∃ v, SscanfInt (TrimSpace selection) = some v ∧ (v < 1 ∨ (config.keys.length : Int) < v)) :
    switchCommand env =
      { events := [Event.print "Available SSH keys:\n"] ++ printKeys 0 config.keys ++
          [Event.print "\nSelect a key (enter number): ",
           Event.print "Invalid selection. Please enter a valid number.\n"],
        config := config } := by
  have hev := loadConfig_events env _ _ _ hload
  subst hev
  have hlen : ¬ config.keys.length = 0 := by
    intro h
    exact hne (List.length_eq_zero.1 h)
  rcases hbad with h | ⟨v, h, hv⟩
  · simp [switchCommand, hload, hlen, hread, h]
  · simp [switchCommand, hload, hlen, hread, h, hv]

/-- What `switchCommand` does on a valid selection. -/
theorem switchCommand_valid (env : Env) (ev : List Event) (config : Config)
    (selection rest : GoString) (index : Int) (key : SSHKey)
    (hload : loadConfig env Config.zero = (ev, some config))
    (hread : readString env.stdin = some (selection, rest))
    (hscan : SscanfInt (TrimSpace selection) = some index)
    (h1 : 1 ≤ index) (h2 : index ≤ (config.keys.length : Int))
    (hkey : config.keys.get? (index - 1).toNat = some key) :
    switchCommand env =
      { events := [Event.print "Available SSH keys:\n"] ++ printKeys 0 config.keys ++
          [Event.print "\nSelect a key (enter number): ",
           Event.print "Clearing existing SSH keys...\n",
           Event.run [lit "ssh-add", lit "-D"]] ++
          (match env.runClear with
           | some e => [Event.printf "Warning: Could not clear existing SSH keys: %v\n" [Arg.err e]]
           | none => []) ++
          [Event.printf "Adding SSH key: %s\n" [Arg.str key.Alias],
           Event.run (addArgv key),
           match env.runAdd (addArgv key) with
           | some e => Event.printf "Error adding SSH key: %v\n" [Arg.err e]
           | none => Event.printf "Successfully switched to SSH key: %s\n" [Arg.str key.Alias]],
        config := config } := by
  have hev := loadConfig_events env _ _ _ hload
  subst hev
  have hlen : ¬ config.keys.length = 0 := by omega
  have hv : ¬ (index < 1 ∨ (config.keys.length : Int) < index) := by omega
  simp only [switchCommand, hload, hlen, hread, hscan, hv, hkey, if_false, List.nil_append]
  cases env.runClear <;> cases env.runAdd (addArgv key) <;> simp

theorem getLast?_append_two {α : Type} (l : List α) (a b : α) :
    (l ++ [a, b]).getLast? = some b := by
  have : l ++ [a, b] = (l ++ [a]) ++ [b] := by simp
  rw [this, List.getLast?_concat]

/-- C6. Activation command: for every store and every valid selection, the
external commands `switchCommand` runs are exactly `ssh-add -D` first and
then one add command: `ssh-add <path>` of the selected record when its
`SudoMode` is false, `sudo ssh-add <path>` when it is true; the command goes
through `sudo` if and only if `SudoMode` is set. -/
theorem switch_activation_command (env : Env) (ev : List Event) (config : Config)
    (selection rest : GoString) (index : Int) (key : SSHKey)
    (hload : loadConfig env Config.zero = (ev, some config))
    (hread : readString env.stdin = some (selection, rest))
    (hscan : SscanfInt (TrimSpace selection) = some index)
    (h1 : 1 ≤ index) (h2 : index ≤ (config.keys.length : Int))
    (hkey : config.keys.get? (index - 1).toNat = some key) :
    commands (switchCommand env).events =
      [[lit "ssh-add", lit "-D"],
       if key.SudoMode then [lit "sudo", lit "ssh-add", key.Path] else [lit "ssh-add", key.Path]] ∧
    (∀ argv, commands (switchCommand env).events = [[lit "ssh-add", lit "-D"], argv] →
      (argv.head? = some (lit "sudo") ↔ key.SudoMode = true)) := by
  have hc : commands (switchCommand env).events =
      [[lit "ssh-add", lit "-D"],
       if key.SudoMode then [lit "sudo", lit "ssh-add", key.Path] else [lit "ssh-add", key.Path]] := by
    rw [switchCommand_valid env ev config selection rest index key hload hread hscan h1 h2 hkey]
    cases env.runClear <;> cases env.runAdd (addArgv key) <;>
      simp [commands_append, commands_printKeys, commands, addArgv]
  refine ⟨hc, ?_⟩
  intro argv h
  rw [hc] at h
  simp only [List.cons.injEq, and_true, true_and] at h
  subst h
  cases hs : key.SudoMode
  · simp only [Bool.false_eq_true, if_false, List.head?_cons, Option.some.injEq, iff_false]
    decide
  · simp

/-- C6, at the store with two keys and the selection `2`, the key in sudo
mode: the add command goes through `sudo`. -/
theorem switch_activation_command_witness :
    commands (switchCommand (okEnv (ReadFileResult.contents twoKeyFile) (lit "2\n"))).events =
      [[lit "ssh-add", lit "-D"],
       if ({ Path := lit "/tmp/key2", Alias := lit "work", SudoMode := true } : SSHKey).SudoMode
       then [lit "sudo", lit "ssh-add", lit "/tmp/key2"] else [lit "ssh-add", lit "/tmp/key2"]] :=
  (switch_activation_command (okEnv (ReadFileResult.contents twoKeyFile) (lit "2\n")) []
    { Keys := some [{ Path := lit "/tmp/key1", Alias := lit "key1", SudoMode := false },
      { Path := lit "/tmp/key2", Alias := lit "work", SudoMode := true }] }
    (lit "2\n") [] 2 { Path := lit "/tmp/key2", Alias := lit "work", SudoMode := true }
    (by decide) (by decide) (by decide) (by decide) (by decide) (by decide)).1

theorem success_not_printed_by_printKeys (keys : List SSHKey) (start : Nat) (args : List Arg) :
    Event.printf "Successfully switched to SSH key: %s\n" args ∉ printKeys start keys := by
  intro h
  obtain ⟨a, ha⟩ := printKeys_format keys start _ h
  simp only [Event.printf.injEq] at ha
  exact absurd ha.1 (by decide)

/-- C7. Failure asymmetry in `switchCommand`: for every valid selection and
every pair of results of the clear and add commands, both commands are run
(a failing clear only adds a warning), the success confirmation naming the
selected alias is printed if and only if the add command succeeds, and when
the add command fails the command ends with the error report and prints no
success message. -/
theorem switch_failure_asymmetry (env : Env) (ev : List Event) (config : Config)
    (selection rest : GoString) (index : Int) (key : SSHKey)
    (hload : loadConfig env Config.zero = (ev, some config))
    (hread : readString env.stdin = some (selection, rest))
    (hscan : SscanfInt (TrimSpace selection) = some index)
    (h1 : 1 ≤ index) (h2 : index ≤ (config.keys.length : Int))
    (hkey : config.keys.get? (index - 1).toNat = some key) :
    commands (switchCommand env).events = [[lit "ssh-add", lit "-D"], addArgv key] ∧
    (Event.printf "Successfully switched to SSH key: %s\n" [Arg.str key.Alias] ∈
        (switchCommand env).events ↔ env.runAdd (addArgv key) = none) ∧
    (∀ e, env.runAdd (addArgv key) = some e →
      (switchCommand env).events.getLast? =
        some (Event.printf "Error adding SSH key: %v\n" [Arg.err e]) ∧
      ∀ args, Event.printf "Successfully switched to SSH key: %s\n" args ∉
        (switchCommand env).events) ∧
    (∀ e, env.runClear = some e →
      Event.printf "Warning: Could not clear existing SSH keys: %v\n" [Arg.err e] ∈
        (switchCommand env).events) := by
  rw [switchCommand_valid env ev config selection rest index key hload hread hscan h1 h2 hkey]
  have hp := success_not_printed_by_printKeys config.keys 0
  refine ⟨?_, ?_, ?_, ?_⟩
  · cases env.runClear <;> cases env.runAdd (addArgv key) <;>
      simp [commands_append, commands_printKeys, commands]
  · cases env.runClear <;> cases env.runAdd (addArgv key) <;> simp [hp]
  · intro e he
    rw [he]
    constructor
    · simp only [List.getLast?_append]
      rfl
    · intro args
      cases env.runClear <;> simp [hp]
  · intro e he
    rw [he]
    simp

/-- C7, at the store with one key, selection `1`, the clear command
succeeding and the add command failing: the command ends with the error
report and prints no success message. -/
theorem switch_failure_asymmetry_witness :
    (switchCommand { okEnv (ReadFileResult.contents oneKeyFile) (lit "1\n") with
        runAdd := fun _ => some (GoError.os (lit "exit status 1")) }).events.getLast? =
      some (Event.printf "Error adding SSH key: %v\n" [Arg.err (GoError.os (lit "exit status 1"))]) ∧
    ∀ args, Event.printf "Successfully switched to SSH key: %s\n" args ∉
      (switchCommand { okEnv (ReadFileResult.contents oneKeyFile) (lit "1\n") with
        runAdd := fun _ => some (GoError.os (lit "exit status 1")) }).events :=
  (switch_failure_asymmetry { okEnv (ReadFileResult.contents oneKeyFile) (lit "1\n") with
      runAdd := fun _ => some (GoError.os (lit "exit status 1")) } []
    { Keys := some [{ Path := lit "/tmp/key1", Alias := lit "key1", SudoMode := false }] }
    (lit "1\n") [] 1 { Path := lit "/tmp/key1", Alias := lit "key1", SudoMode := false }
    (by decide) (by decide) (by decide) (by decide) (by decide) (by decide)).2.2.1
    (GoError.os (lit "exit status 1")) (by decide)

theorem get?_after_head {α : Type} (a : α) (l m : List α) (i : Nat) (v : α)
    (h : l.get? i = some v) : (a :: (l ++ m)).get? (i + 1) = some v := by
  rw [List.get?_cons_succ]
  have hi : i < l.length := by
    rcases Nat.lt_or_ge i l.length with h2 | h2
    · exact h2
    · rw [List.get?_eq_none.2 h2] at h
      cases h
  rw [List.get?_eq_getElem?, List.getElem?_append_left hi, ← List.get?_eq_getElem?]
  exact h

theorem listCommand_listing (env : Env) (ev : List Event) (config : Config)
    (hload : loadConfig env Config.zero = (ev, some config))
    (hne : config.keys ≠ []) :
    listCommand env =
      { events := [Event.print "Registered SSH keys:\n", Event.print "====================\n"] ++
          listKeys 0 config.keys,
        config := config } := by
  have hev := loadConfig_events env _ _ _ hload
  subst hev
  have hlen : ¬ config.keys.length = 0 := by
    intro h
    exact hne (List.length_eq_zero.1 h)
  simp [listCommand, hload, hlen]

theorem crash_not_printed_by_printKeys (keys : List SSHKey) (start : Nat) :
    Event.crash ∉ printKeys start keys := by
  intro h
  obtain ⟨a, ha⟩ := printKeys_format keys start _ h
  cases ha

/-- The events of `switchCommand` on a non-empty store start with the header
and the numbered listing, whatever is typed afterwards. -/
theorem switchCommand_listing (env : Env) (ev : List Event) (config : Config)
    (hload : loadConfig env Config.zero = (ev, some config))
    (hne : config.keys ≠ []) :
    ∃ tail, (switchCommand env).events =
      Event.print "Available SSH keys:\n" :: (printKeys 0 config.keys ++ tail) := by
  have hlen : ¬ config.keys.length = 0 := by
    intro h
    exact hne (List.length_eq_zero.1 h)
  cases hread : readString env.stdin with
  | none =>
    have hev := loadConfig_events env _ _ _ hload
    subst hev
    simp only [switchCommand, hload, hlen, hread, if_false, List.nil_append]
    exact ⟨_, by simp only [List.append_assoc, List.singleton_append, List.cons_append,
      List.nil_append]; rfl⟩
  | some p =>
    obtain ⟨selection, rest⟩ := p
    cases hscan : SscanfInt (TrimSpace selection) with
    | none =>
      rw [switchCommand_invalid env ev config selection rest hload hne hread (Or.inl hscan)]
      exact ⟨_, by simp only [List.append_assoc, List.singleton_append, List.cons_append,
        List.nil_append]; rfl⟩
    | some v =>
      by_cases hv : v < 1 ∨ (config.keys.length : Int) < v
      · rw [switchCommand_invalid env ev config selection rest hload hne hread
          (Or.inr ⟨v, hscan, hv⟩)]
        exact ⟨_, by simp only [List.append_assoc, List.singleton_append, List.cons_append,
          List.nil_append]; rfl⟩
      · have h1 : 1 ≤ v := by omega
        have h2 : v ≤ (config.keys.length : Int) := by omega
        obtain ⟨key, hkey⟩ := selected_exists config.keys v h1 h2
        rw [switchCommand_valid env ev config selection rest v key hload hread hscan h1 h2 hkey]
        exact ⟨_, by simp only [List.append_assoc, List.singleton_append, List.cons_append,
          List.nil_append]; rfl⟩

/-- Numbering of the listings, position by position: for every non-empty
store, `switchCommand` and `listCommand` print the record at position `i` of
the store with the ordinal `i + 1`, in the order of the store; and for every
accepted selection `index` the record at position `index - 1` exists (the
lookup never goes out of bounds, the program never crashes), it is the record
both commands print with the ordinal `index`, and it is the record whose add
command `switchCommand` runs. -/
theorem numbering_by_position (env : Env) (ev : List Event) (config : Config)
    (hload : loadConfig env Config.zero = (ev, some config))
    (hne : config.keys ≠ []) :
    (∀ (i : Nat) (k : SSHKey), config.keys.get? i = some k →
      (switchCommand env).events.get? (i + 1) = some (Event.printf "%d. %s%s - %s\n"
        [Arg.int ((i : Int) + 1), Arg.str k.Alias, Arg.str (sudoText k), Arg.str k.Path]) ∧
      (listCommand env).events.get? (i + 2) = some (Event.printf "%d. %s%s\n   Path: %s\n\n"
        [Arg.int ((i : Int) + 1), Arg.str k.Alias, Arg.str (sudoText k), Arg.str k.Path])) ∧
    (∀ (selection rest : GoString) (index : Int),
      readString env.stdin = some (selection, rest) →
      SscanfInt (TrimSpace selection) = some index →
      1 ≤ index → index ≤ (config.keys.length : Int) →
      ∃ key, config.keys.get? (index - 1).toNat = some key ∧
        (switchCommand env).events.get? index.toNat = some (Event.printf "%d. %s%s - %s\n"
          [Arg.int index, Arg.str key.Alias, Arg.str (sudoText key), Arg.str key.Path]) ∧
        (listCommand env).events.get? (index.toNat + 1) = some
          (Event.printf "%d. %s%s\n   Path: %s\n\n"
            [Arg.int index, Arg.str key.Alias, Arg.str (sudoText key), Arg.str key.Path]) ∧
        commands (switchCommand env).events = [[lit "ssh-add", lit "-D"], addArgv key] ∧
        Event.crash ∉ (switchCommand env).events) := by
  have hls := listCommand_listing env ev config hload hne
  obtain ⟨tail, hsl⟩ := switchCommand_listing env ev config hload hne
  have hnum : ∀ (i : Nat) (k : SSHKey), config.keys.get? i = some k →
      (switchCommand env).events.get? (i + 1) = some (Event.printf "%d. %s%s - %s\n"
        [Arg.int ((i : Int) + 1), Arg.str k.Alias, Arg.str (sudoText k), Arg.str k.Path]) ∧
      (listCommand env).events.get? (i + 2) = some (Event.printf "%d. %s%s\n   Path: %s\n\n"
        [Arg.int ((i : Int) + 1), Arg.str k.Alias, Arg.str (sudoText k), Arg.str k.Path]) := by
    intro i k hk
    constructor
    · rw [hsl]
      have hp := printKeys_get? config.keys 0 i k hk
      rw [get?_after_head _ _ _ _ _ hp]
      simp
    · rw [hls]
      have hp := listKeys_get? config.keys 0 i k hk
      dsimp only
      simp only [List.cons_append, List.nil_append, List.get?_cons_succ]
      rw [hp]
      simp
  refine ⟨hnum, ?_⟩
  intro selection rest index hread hscan h1 h2
  obtain ⟨key, hkey⟩ := selected_exists config.keys index h1 h2
  have hsw := switchCommand_valid env ev config selection rest index key hload hread hscan h1 h2 hkey
  refine ⟨key, hkey, ?_, ?_, ?_, ?_⟩
  · have h := (hnum (index - 1).toNat key hkey).1
    have e1 : (index - 1).toNat + 1 = index.toNat := by omega
    have e2 : (((index - 1).toNat : Nat) : Int) + 1 = index := by omega
    rw [e1, e2] at h
    exact h
  · have h := (hnum (index - 1).toNat key hkey).2
    have e1 : (index - 1).toNat + 2 = index.toNat + 1 := by omega
    have e2 : (((index - 1).toNat : Nat) : Int) + 1 = index := by omega
    rw [e1, e2] at h
    exact h
  · rw [hsw]
    cases env.runClear <;> cases env.runAdd (addArgv key) <;>
      simp [commands_append, commands_printKeys, commands]
  · rw [hsw]
    have hc := crash_not_printed_by_printKeys config.keys 0
    cases env.runClear <;> cases env.runAdd (addArgv key) <;> simp [hc]

/-- The events of `switchCommand` on a non-empty store: the header, the
numbered listing, the prompt, and then no further listing line. -/
theorem switchCommand_listing_prompt (env : Env) (ev : List Event) (config : Config)
    (hload : loadConfig env Config.zero = (ev, some config))
    (hne : config.keys ≠ []) :
    ∃ tail, (switchCommand env).events =
      Event.print "Available SSH keys:\n" :: (printKeys 0 config.keys ++
        Event.print "\nSelect a key (enter number): " :: tail) ∧
      ∀ e ∈ tail, ∀ args, e ≠ Event.printf "%d. %s%s - %s\n" args := by
  have hlen : ¬ config.keys.length = 0 := by
    intro h
    exact hne (List.length_eq_zero.1 h)
  cases hread : readString env.stdin with
  | none =>
    have hev := loadConfig_events env _ _ _ hload
    subst hev
    refine ⟨[Event.printf "Error reading input: %v\n" [Arg.err GoError.eof]], ?_, ?_⟩
    · simp only [switchCommand, hload, hlen, hread, if_false, List.nil_append]
      simp
    · intro e he args
      simp only [List.mem_singleton] at he
      subst he
      simp only [ne_eq, Event.printf.injEq, not_and]
      intro h
      exact absurd h (by decide)
  | some p =>
    obtain ⟨selection, rest⟩ := p
    have hinv : (SscanfInt (TrimSpace selection) = none ∨
        ∃ v, SscanfInt (TrimSpace selection) = some v ∧
          (v < 1 ∨ (config.keys.length : Int) < v)) → ∃ tail, (switchCommand env).events =
        Event.print "Available SSH keys:\n" :: (printKeys 0 config.keys ++
          Event.print "\nSelect a key (enter number): " :: tail) ∧
        ∀ e ∈ tail, ∀ args, e ≠ Event.printf "%d. %s%s - %s\n" args := by
      intro hbad
      refine ⟨[Event.print "Invalid selection. Please enter a valid number.\n"], ?_, ?_⟩
      · rw [switchCommand_invalid env ev config selection rest hload hne hread hbad]
        simp
      · intro e he args
        simp only [List.mem_singleton] at he
        subst he
        simp
    cases hscan : SscanfInt (TrimSpace selection) with
    | none => exact hinv (Or.inl hscan)
    | some v =>
      by_cases hv : v < 1 ∨ (config.keys.length : Int) < v
      · exact hinv (Or.inr ⟨v, hscan, hv⟩)
      · have h1 : 1 ≤ v := by omega
        have h2 : v ≤ (config.keys.length : Int) := by omega
        obtain ⟨key, hkey⟩ := selected_exists config.keys v h1 h2
        refine ⟨[Event.print "Clearing existing SSH keys...\n",
            Event.run [lit "ssh-add", lit "-D"]] ++
          (match env.runClear with
           | some e => [Event.printf "Warning: Could not clear existing SSH keys: %v\n" [Arg.err e]]
           | none => []) ++
          [Event.printf "Adding SSH key: %s\n" [Arg.str key.Alias],
           Event.run (addArgv key),
           match env.runAdd (addArgv key) with
           | some e => Event.printf "Error adding SSH key: %v\n" [Arg.err e]
           | none => Event.printf "Successfully switched to SSH key: %s\n" [Arg.str key.Alias]],
          ?_, ?_⟩
        · rw [switchCommand_valid env ev config selection rest v key hload hread hscan h1 h2 hkey]
          simp
        · intro e he args heq
          subst heq
          have d1 : ¬ ("%d. %s%s - %s\n" = "Warning: Could not clear existing SSH keys: %v\n") := by
            decide
          have d2 : ¬ ("%d. %s%s - %s\n" = "Adding SSH key: %s\n") := by decide
          have d3 : ¬ ("%d. %s%s - %s\n" = "Error adding SSH key: %v\n") := by decide
          have d4 : ¬ ("%d. %s%s - %s\n" = "Successfully switched to SSH key: %s\n") := by decide
          cases hc : env.runClear <;> cases ha : env.runAdd (addArgv key) <;>
            simp [hc, ha, d1, d2, d3, d4] at he

/-- C9. Identical numbering for display and selection: for every non-empty
store of size N, `listCommand` prints its two header lines and then exactly
one line per record, and `switchCommand` prints its header, exactly one line
per record and then the prompt, with no further listing line afterwards; the
line of the record at position `i` carries the ordinal `i + 1`, its alias,
its sudo mark and its path, in the order of the store.  For every accepted
selection `index` the record at position `index - 1` exists (the lookup never
goes out of bounds, the program never crashes), it is the record both
commands print with the ordinal `index`, and the add command `switchCommand`
runs carries the path of that record. -/
theorem display_selection_numbering (env : Env) (ev : List Event) (config : Config)
    (hload : loadConfig env Config.zero = (ev, some config))
    (hne : config.keys ≠ []) :
    (listCommand env).events =
      [Event.print "Registered SSH keys:\n", Event.print "====================\n"] ++
        config.keys.enum.map (fun p => Event.printf "%d. %s%s\n   Path: %s\n\n"
          [Arg.int ((p.1 : Int) + 1), Arg.str p.2.Alias,
            Arg.str (if p.2.SudoMode then lit " (sudo)" else []), Arg.str p.2.Path]) ∧
    (∃ tail, (switchCommand env).events =
      Event.print "Available SSH keys:\n" ::
        (config.keys.enum.map (fun p => Event.printf "%d. %s%s - %s\n"
          [Arg.int ((p.1 : Int) + 1), Arg.str p.2.Alias,
            Arg.str (if p.2.SudoMode then lit " (sudo)" else []), Arg.str p.2.Path]) ++
          Event.print "\nSelect a key (enter number): " :: tail) ∧
      ∀ e ∈ tail, ∀ args, e ≠ Event.printf "%d. %s%s - %s\n" args) ∧
    (∀ (i : Nat) (k : SSHKey), config.keys.get? i = some k →
      (switchCommand env).events.get? (i + 1) = some (Event.printf "%d. %s%s - %s\n"
        [Arg.int ((i : Int) + 1), Arg.str k.Alias,
          Arg.str (if k.SudoMode then lit " (sudo)" else []), Arg.str k.Path]) ∧
      (listCommand env).events.get? (i + 2) = some (Event.printf "%d. %s%s\n   Path: %s\n\n"
        [Arg.int ((i : Int) + 1), Arg.str k.Alias,
          Arg.str (if k.SudoMode then lit " (sudo)" else []), Arg.str k.Path])) ∧
    (∀ (selection rest : GoString) (index : Int),
      readString env.stdin = some (selection, rest) →
      SscanfInt (TrimSpace selection) = some index →
      1 ≤ index → index ≤ (config.keys.length : Int) →
      ∃ key, config.keys.get? (index - 1).toNat = some key ∧
        (switchCommand env).events.get? index.toNat = some (Event.printf "%d. %s%s - %s\n"
          [Arg.int index, Arg.str key.Alias,
            Arg.str (if key.SudoMode then lit " (sudo)" else []), Arg.str key.Path]) ∧
        (listCommand env).events.get? (index.toNat + 1) = some
          (Event.printf "%d. %s%s\n   Path: %s\n\n"
            [Arg.int index, Arg.str key.Alias,
              Arg.str (if key.SudoMode then lit " (sudo)" else []), Arg.str key.Path]) ∧
        commands (switchCommand env).events =
          [[lit "ssh-add", lit "-D"],
           if key.SudoMode then [lit "sudo", lit "ssh-add", key.Path]
           else [lit "ssh-add", key.Path]] ∧
        Event.crash ∉ (switchCommand env).events) := by
  have haux := numbering_by_position env ev config hload hne
  have hprint : ∀ (keys : List SSHKey) (start : Nat),
      printKeys start keys = (keys.enumFrom start).map (fun p =>
        Event.printf "%d. %s%s - %s\n"
          [Arg.int ((p.1 : Int) + 1), Arg.str p.2.Alias,
            Arg.str (if p.2.SudoMode then lit " (sudo)" else []), Arg.str p.2.Path]) := by
    intro keys
    induction keys with
    | nil => intro start; rfl
    | cons k rest ih =>
      intro start
      simp only [printKeys, List.enumFrom_cons, List.map_cons, ih, sudoText]
  have hlist : ∀ (keys : List SSHKey) (start : Nat),
      listKeys start keys = (keys.enumFrom start).map (fun p =>
        Event.printf "%d. %s%s\n   Path: %s\n\n"
          [Arg.int ((p.1 : Int) + 1), Arg.str p.2.Alias,
            Arg.str (if p.2.SudoMode then lit " (sudo)" else []), Arg.str p.2.Path]) := by
    intro keys
    induction keys with
    | nil => intro start; rfl
    | cons k rest ih =>
      intro start
      simp only [listKeys, List.enumFrom_cons, List.map_cons, ih, sudoText]
  refine ⟨?_, ?_, haux.1, ?_⟩
  · rw [listCommand_listing env ev config hload hne, hlist]
    rfl
  · obtain ⟨tail, h1, h2⟩ := switchCommand_listing_prompt env ev config hload hne
    refine ⟨tail, ?_, h2⟩
    rw [h1, hprint]
    rfl
  · intro selection rest index hread hscan h1 h2
    obtain ⟨key, hk, hs, hl, hc, hcr⟩ := haux.2 selection rest index hread hscan h1 h2
    exact ⟨key, hk, hs, hl, hc, hcr⟩

/-- C9, at the store with two keys and the selection `2`: the second record
is printed with ordinal 2 by both commands and its path is the one handed to
the add command. -/
theorem display_selection_numbering_witness :
    ∃ key, ({ Keys := some [{ Path := lit "/tmp/key1", Alias := lit "key1", SudoMode := false },
        { Path := lit "/tmp/key2", Alias := lit "work", SudoMode := true }] } : Config).keys.get?
          ((2 : Int) - 1).toNat = some key ∧
      (switchCommand (okEnv (ReadFileResult.contents twoKeyFile) (lit "2\n"))).events.get?
        (2 : Int).toNat = some (Event.printf "%d. %s%s - %s\n"
          [Arg.int 2, Arg.str key.Alias,
            Arg.str (if key.SudoMode then lit " (sudo)" else []), Arg.str key.Path]) ∧
      (listCommand (okEnv (ReadFileResult.contents twoKeyFile) (lit "2\n"))).events.get?
        ((2 : Int).toNat + 1) = some (Event.printf "%d. %s%s\n   Path: %s\n\n"
          [Arg.int 2, Arg.str key.Alias,
            Arg.str (if key.SudoMode then lit " (sudo)" else []), Arg.str key.Path]) ∧
      commands (switchCommand (okEnv (ReadFileResult.contents twoKeyFile) (lit "2\n"))).events =
        [[lit "ssh-add", lit "-D"],
         if key.SudoMode then [lit "sudo", lit "ssh-add", key.Path]
         else [lit "ssh-add", key.Path]] ∧
      Event.crash ∉ (switchCommand (okEnv (ReadFileResult.contents twoKeyFile) (lit "2\n"))).events :=
  (display_selection_numbering (okEnv (ReadFileResult.contents twoKeyFile) (lit "2\n")) []
    { Keys := some [{ Path := lit "/tmp/key1", Alias := lit "key1", SudoMode := false },
      { Path := lit "/tmp/key2", Alias := lit "work", SudoMode := true }] }
    (by decide) (by decide)).2.2.2 (lit "2\n") [] 2 (by decide) (by decide) (by decide) (by decide)

/-! ### UTF-8: decoding then encoding a valid rune gives back its bytes -/

theorem decodeRune_ascii (b : Nat) (t : GoString) (h : b < 0x80) :
    decodeRune (b :: t) = (b, 1) := by
  simp [decodeRune, h]

theorem decodeRune_two (b b1 : Nat) (t : GoString) (h1 : 0xC2 ≤ b) (h2 : b < 0xE0) :
    decodeRune (b :: b1 :: t) =
      if b1 < 0x80 ∨ 0xBF < b1 then (RuneError, 1) else ((b % 32) * 64 + b1 % 64, 2) := by
  have e1 : ¬ b < 0x80 := by omega
  have e2 : ¬ (b < 0xC2 ∨ 0xF4 < b) := by omega
  have e3 : ¬ b = 0xE0 := by omega
  have e4 : ¬ b = 0xF0 := by omega
  have e5 : ¬ b = 0xED := by omega
  have e6 : ¬ b = 0xF4 := by omega
  simp only [decodeRune, e1, e2, e3, e4, e5, e6, h2, if_true, if_false]

theorem decodeRune_three (b b1 b2 : Nat) (t : GoString) (h1 : 0xE0 ≤ b) (h2 : b < 0xF0) :
    decodeRune (b :: b1 :: b2 :: t) =
      if b1 < (if b = 0xE0 then 0xA0 else 0x80) ∨ (if b = 0xED then 0x9F else 0xBF) < b1 then
        (RuneError, 1)
      else if b2 < 0x80 ∨ 0xBF < b2 then (RuneError, 1)
      else ((b % 16) * 4096 + (b1 % 64) * 64 + b2 % 64, 3) := by
  have e1 : ¬ b < 0x80 := by omega
  have e2 : ¬ (b < 0xC2 ∨ 0xF4 < b) := by omega
  have e3 : ¬ b < 0xE0 := by omega
  have e4 : ¬ b = 0xF0 := by omega
  have e6 : ¬ b = 0xF4 := by omega
  simp only [decodeRune, e1, e2, e3, e4, e6, h2, if_true, if_false]

theorem decodeRune_four (b b1 b2 b3 : Nat) (t : GoString) (h1 : 0xF0 ≤ b) (h2 : b ≤ 0xF4) :
    decodeRune (b :: b1 :: b2 :: b3 :: t) =
      if b1 < (if b = 0xF0 then 0x90 else 0x80) ∨ (if b = 0xF4 then 0x8F else 0xBF) < b1 then
        (RuneError, 1)
      else if b2 < 0x80 ∨ 0xBF < b2 then (RuneError, 1)
      else if b3 < 0x80 ∨ 0xBF < b3 then (RuneError, 1)
      else ((b % 8) * 262144 + (b1 % 64) * 4096 + (b2 % 64) * 64 + b3 % 64, 4) := by
  have e1 : ¬ b < 0x80 := by omega
  have e2 : ¬ (b < 0xC2 ∨ 0xF4 < b) := by omega
  have e3 : ¬ b < 0xE0 := by omega
  have e4 : ¬ b < 0xF0 := by omega
  have e5 : ¬ b = 0xE0 := by omega
  have e6 : ¬ b = 0xED := by omega
  simp only [decodeRune, e1, e2, e3, e4, e5, e6, if_true, if_false]

theorem decodeRune_short (b : Nat) (t : GoString) (hb : ¬ b < 0x80)
    (h : b < 0xC2 ∨ 0xF4 < b ∨ t = [] ∨ (0xE0 ≤ b ∧ t.length < 2) ∨ (0xF0 ≤ b ∧ t.length < 3)) :
    decodeRune (b :: t) = (RuneError, 1) := by
  rcases t with _ | ⟨b1, _ | ⟨b2, _ | ⟨b3, t3⟩⟩⟩
  · simp only [decodeRune, hb, if_false]
    split_ifs <;> rfl
  · simp only [decodeRune, hb, if_false]
    simp only [List.length_cons, List.length_nil] at h
    split_ifs <;> first | rfl | (exfalso; simp at h; omega)
  · simp only [decodeRune, hb, if_false]
    simp only [List.length_cons, List.length_nil] at h
    split_ifs <;> first | rfl | (exfalso; simp at h; omega)
  · simp only [decodeRune, hb, if_false]
    simp only [List.length_cons] at h
    split_ifs <;> first | rfl | (exfalso; simp at h; omega)

/-- The possible shapes of a valid multi-byte encoding at the head of a
string. -/
theorem decodeRune_shapes (b : Nat) (t : GoString) (hb : ¬ b < 0x80)
    (hv : ¬ ((decodeRune (b :: t)).1 = RuneError ∧ (decodeRune (b :: t)).2 = 1)) :
    (∃ b1 t1, t = b1 :: t1 ∧ 0xC2 ≤ b ∧ b < 0xE0 ∧ 0x80 ≤ b1 ∧ b1 ≤ 0xBF) ∨
    (∃ b1 b2 t2, t = b1 :: b2 :: t2 ∧ 0xE0 ≤ b ∧ b < 0xF0 ∧
      (if b = 0xE0 then 0xA0 else 0x80) ≤ b1 ∧ b1 ≤ (if b = 0xED then 0x9F else 0xBF) ∧
      0x80 ≤ b2 ∧ b2 ≤ 0xBF) ∨
    (∃ b1 b2 b3 t3, t = b1 :: b2 :: b3 :: t3 ∧ 0xF0 ≤ b ∧ b ≤ 0xF4 ∧
      (if b = 0xF0 then 0x90 else 0x80) ≤ b1 ∧ b1 ≤ (if b = 0xF4 then 0x8F else 0xBF) ∧
      0x80 ≤ b2 ∧ b2 ≤ 0xBF ∧ 0x80 ≤ b3 ∧ b3 ≤ 0xBF) := by
  have hshort : ¬ (b < 0xC2 ∨ 0xF4 < b ∨ t = [] ∨ (0xE0 ≤ b ∧ t.length < 2) ∨
      (0xF0 ≤ b ∧ t.length < 3)) := by
    intro h
    rw [decodeRune_short b t hb h] at hv
    exact hv ⟨rfl, rfl⟩
  have hlo : 0xC2 ≤ b := by omega
  have hhi : b ≤ 0xF4 := by omega
  have hne : t ≠ [] := fun h => hshort (by simp [h])
  rcases t with _ | ⟨b1, t1⟩
  · exact absurd rfl hne
  by_cases h2 : b < 0xE0
  · left
    refine ⟨b1, t1, rfl, hlo, h2, ?_⟩
    rw [decodeRune_two b b1 t1 hlo h2] at hv
    by_contra hcon
    apply hv
    rw [if_pos (by omega)]
    exact ⟨rfl, rfl⟩
  have h2' : 0xE0 ≤ b := by omega
  have hlen2 : ¬ (b1 :: t1).length < 2 := fun h => hshort (by simp only [h2', h]; simp)
  rcases t1 with _ | ⟨b2, t2⟩
  · exact absurd (by simp) hlen2
  by_cases h3 : b < 0xF0
  · right; left
    refine ⟨b1, b2, t2, rfl, h2', h3, ?_⟩
    rw [decodeRune_three b b1 b2 t2 h2' h3] at hv
    by_contra hcon
    apply hv
    by_cases c1 : b1 < (if b = 0xE0 then 0xA0 else 0x80) ∨ (if b = 0xED then 0x9F else 0xBF) < b1
    · rw [if_pos c1]
      exact ⟨rfl, rfl⟩
    · rw [if_neg c1, if_pos (by omega)]
      exact ⟨rfl, rfl⟩
  have h3' : 0xF0 ≤ b := by omega
  have hlen3 : ¬ (b1 :: b2 :: t2).length < 3 := fun h => hshort (by simp only [h3', h]; simp)
  rcases t2 with _ | ⟨b3, t3⟩
  · exact absurd (by simp) hlen3
  right; right
  refine ⟨b1, b2, b3, t3, rfl, h3', hhi, ?_⟩
  rw [decodeRune_four b b1 b2 b3 t3 h3' hhi] at hv
  by_contra hcon
  apply hv
  by_cases c1 : b1 < (if b = 0xF0 then 0x90 else 0x80) ∨ (if b = 0xF4 then 0x8F else 0xBF) < b1
  · rw [if_pos c1]
    exact ⟨rfl, rfl⟩
  · rw [if_neg c1]
    by_cases c2 : b2 < 0x80 ∨ 0xBF < b2
    · rw [if_pos c2]
      exact ⟨rfl, rfl⟩
    · rw [if_neg c2, if_pos (by omega)]
      exact ⟨rfl, rfl⟩

/-- Encoding the decoded rune of a valid two-byte sequence gives the bytes
back. -/
theorem appendRune_two (b b1 : Nat) (h1 : 0xC2 ≤ b) (h2 : b < 0xE0) (h3 : 0x80 ≤ b1)
    (h4 : b1 ≤ 0xBF) : appendRune ((b % 32) * 64 + b1 % 64) = [b, b1] := by
  unfold appendRune
  rw [if_neg (by omega), if_pos (by omega)]
  congr 1
  · omega
  · congr 1
    omega

theorem appendRune_three (b b1 b2 : Nat) (h1 : 0xE0 ≤ b) (h2 : b < 0xF0)
    (h3 : (if b = 0xE0 then 0xA0 else 0x80) ≤ b1) (h4 : b1 ≤ (if b = 0xED then 0x9F else 0xBF))
    (h5 : 0x80 ≤ b2) (h6 : b2 ≤ 0xBF) :
    appendRune ((b % 16) * 4096 + (b1 % 64) * 64 + b2 % 64) = [b, b1, b2] := by
  have k3 : (b = 0xE0 → 0xA0 ≤ b1) ∧ 0x80 ≤ b1 := by split_ifs at h3 <;> omega
  have k4 : (b = 0xED → b1 ≤ 0x9F) ∧ b1 ≤ 0xBF := by split_ifs at h4 <;> omega
  unfold appendRune
  rw [if_neg (by omega), if_neg (by omega), if_neg (by omega), if_pos (by omega)]
  congr 1
  · omega
  · congr 1
    · omega
    · congr 1
      omega

theorem appendRune_four (b b1 b2 b3 : Nat) (h1 : 0xF0 ≤ b) (h2 : b ≤ 0xF4)
    (h3 : (if b = 0xF0 then 0x90 else 0x80) ≤ b1) (h4 : b1 ≤ (if b = 0xF4 then 0x8F else 0xBF))
    (h5 : 0x80 ≤ b2) (h6 : b2 ≤ 0xBF) (h7 : 0x80 ≤ b3) (h8 : b3 ≤ 0xBF) :
    appendRune ((b % 8) * 262144 + (b1 % 64) * 4096 + (b2 % 64) * 64 + b3 % 64) =
      [b, b1, b2, b3] := by
  have k3 : (b = 0xF0 → 0x90 ≤ b1) ∧ 0x80 ≤ b1 := by split_ifs at h3 <;> omega
  have k4 : (b = 0xF4 → b1 ≤ 0x8F) ∧ b1 ≤ 0xBF := by split_ifs at h4 <;> omega
  unfold appendRune
  rw [if_neg (by omega), if_neg (by omega), if_neg (by omega), if_neg (by omega)]
  congr 1
  · omega
  · congr 1
    · omega
    · congr 1
      · omega
      · congr 1
        omega

/-! ### JSON strings: unquoting an encoded string gives the string back -/

/-- One step of the string parser over the encoding of one ASCII byte. -/
theorem parseStringAux_ascii (b : Nat) (hb : b < 0x80) (f : Nat) (tail : GoString) :
    parseStringAux (f + 1) ((if htmlSafe b then [b] else escapeByte b) ++ tail) =
      (parseStringAux f tail).map (fun p => (b :: p.1, p.2)) := by
  by_cases hs : htmlSafe b = true
  · rw [if_pos hs]
    simp only [htmlSafe, decide_eq_true_eq] at hs
    have e1 : ¬ b = 34 := by omega
    have e2 : ¬ b = 92 := by omega
    have e3 : ¬ b < 0x20 := by omega
    simp only [List.singleton_append, parseStringAux, e1, e2, e3, hb, if_true, if_false]
    rfl
  · rw [if_neg hs]
    have hcases : b < 32 ∨ b = 34 ∨ b = 38 ∨ b = 60 ∨ b = 62 ∨ b = 92 := by
      simp only [htmlSafe, decide_eq_true_eq] at hs
      omega
    rcases hcases with h | h | h | h | h | h
    · interval_cases b <;>
        simp [escapeByte, parseStringAux, hexDigit, getu4, hexVal, simpleEscape, appendRune]
    all_goals
      subst h
      simp [escapeByte, parseStringAux, hexDigit, getu4, hexVal, simpleEscape, appendRune]

theorem validAux_cons_ascii (n b : Nat) (t : GoString) (hb : b < 0x80) :
    validAux (n + 1) (b :: t) = validAux n t := by
  have hne : ¬ (b = RuneError ∧ True) := by
    simp only [RuneError]
    omega
  simp [validAux, decodeRune_ascii b t hb, RuneError]
  intro h
  omega

/-- One step of the string parser over the escape of U+2028 or U+2029. -/
theorem parseStringAux_separator (f c : Nat) (hd : c = 56 ∨ c = 57) (tail : GoString) :
    parseStringAux (f + 1) ([92, 117, 50, 48, 50, c] ++ tail) =
      (parseStringAux f tail).map (fun p => (appendRune (8176 + c) ++ p.1, p.2)) := by
  rcases hd with rfl | rfl <;> simp [parseStringAux, getu4, hexVal]

/-- The string parser inverts the string encoder on valid UTF-8. -/
theorem parseStringAux_appendStringAux (n : Nat) :
    ∀ (s : GoString) (f : Nat) (rest : GoString), s.length ≤ n → validAux n s = true →
      (appendStringAux n s).length < f →
      parseStringAux f (appendStringAux n s ++ 34 :: rest) = some (s, rest) := by
  induction n with
  | zero =>
    intro s f rest hlen _ hf
    have hs : s = [] := List.length_eq_zero.1 (by omega)
    subst hs
    obtain ⟨f', rfl⟩ : ∃ f', f = f' + 1 := ⟨f - 1, by omega⟩
    simp [appendStringAux, parseStringAux]
  | succ n ih =>
    intro s f rest hlen hvalid hf
    obtain ⟨f', rfl⟩ : ∃ f', f = f' + 1 := ⟨f - 1, by omega⟩
    rcases s with _ | ⟨b, t⟩
    · simp [appendStringAux, parseStringAux]
    by_cases hb : b < 0x80
    · rw [validAux_cons_ascii n b t hb] at hvalid
      have hout : appendStringAux (n + 1) (b :: t) =
          (if htmlSafe b then [b] else escapeByte b) ++ appendStringAux n t := by
        simp only [appendStringAux, hb, if_true]
      have hpos : 0 < (if htmlSafe b then [b] else escapeByte b).length := by
        unfold escapeByte
        split_ifs <;> simp
      rw [hout] at hf ⊢
      rw [List.length_append] at hf
      rw [List.append_assoc, parseStringAux_ascii b hb f',
        ih t f' rest (by simpa using hlen) hvalid (by omega)]
      rfl
    · have hv : ¬ ((decodeRune (b :: t)).1 = RuneError ∧ (decodeRune (b :: t)).2 = 1) := by
        intro h
        simp [validAux, h] at hvalid
      have e1 : ¬ b = 34 := by omega
      have e2 : ¬ b = 92 := by omega
      have e3 : ¬ b < 0x20 := by omega
      rcases decodeRune_shapes b t hb hv with
        ⟨b1, t1, rfl, h1, h2, h3, h4⟩ | ⟨b1, b2, t2, rfl, h1, h2, h3, h4, h5, h6⟩ |
        ⟨b1, b2, b3, t3, rfl, h1, h2, h3, h4, h5, h6, h7, h8⟩
      · have hd : decodeRune (b :: b1 :: t1) = ((b % 32) * 64 + b1 % 64, 2) := by
          rw [decodeRune_two b b1 t1 h1 h2, if_neg (by omega)]
        have hd2 : ∀ u, decodeRune (b :: b1 :: u) = ((b % 32) * 64 + b1 % 64, 2) := by
          intro u
          rw [decodeRune_two b b1 u h1 h2, if_neg (by omega)]
        have henc := appendRune_two b b1 h1 h2 h3 h4
        have hvalid' : validAux n t1 = true := by
          simpa [validAux, hd] using hvalid
        have hout : appendStringAux (n + 1) (b :: b1 :: t1) =
            b :: b1 :: appendStringAux n t1 := by
          have c1 : ¬ (b % 32 * 64 + b1 % 64 = RuneError ∧ (2 : Nat) = 1) := by omega
          have c2 : ¬ (b % 32 * 64 + b1 % 64 = 0x2028 ∨ b % 32 * 64 + b1 % 64 = 0x2029) := by
            omega
          simp only [appendStringAux, hb, if_false, hd, c1, c2]
          rfl
        rw [hout] at hf ⊢
        simp only [List.length_cons] at hf hlen
        simp only [List.cons_append]
        simp only [parseStringAux, e1, e2, e3, hb, if_false, hd2, henc,
          List.drop_succ_cons, List.drop_zero]
        rw [ih t1 f' rest (by omega) hvalid' (by omega)]
        rfl
      · have hd2 : ∀ u, decodeRune (b :: b1 :: b2 :: u) =
            ((b % 16) * 4096 + (b1 % 64) * 64 + b2 % 64, 3) := by
          intro u
          rw [decodeRune_three b b1 b2 u h1 h2, if_neg (by omega), if_neg (by omega)]
        have hd := hd2 t2
        have henc := appendRune_three b b1 b2 h1 h2 h3 h4 h5 h6
        have hvalid' : validAux n t2 = true := by
          simpa [validAux, hd] using hvalid
        simp only [List.length_cons] at hlen
        have c1 : ¬ (b % 16 * 4096 + b1 % 64 * 64 + b2 % 64 = RuneError ∧ (3 : Nat) = 1) := by
          omega
        by_cases hsep : b % 16 * 4096 + b1 % 64 * 64 + b2 % 64 = 0x2028 ∨
            b % 16 * 4096 + b1 % 64 * 64 + b2 % 64 = 0x2029
        · have hout : appendStringAux (n + 1) (b :: b1 :: b2 :: t2) =
              [92, 117, 50, 48, 50, hexDigit ((b % 16 * 4096 + b1 % 64 * 64 + b2 % 64) % 16)] ++
                appendStringAux n t2 := by
            simp only [appendStringAux, hb, if_false, hd, c1, hsep, if_true]
            rfl
          rw [hout] at hf ⊢
          simp only [List.length_append, List.length_cons, List.length_nil] at hf
          rcases hsep with hsep | hsep
          · rw [hsep] at henc ⊢
            rw [show hexDigit (8232 % 16) = 56 from rfl, List.append_assoc,
              parseStringAux_separator f' 56 (by omega),
              ih t2 f' rest (by omega) hvalid' (by omega), show 8176 + 56 = 8232 from rfl]
            simp [henc]
          · rw [hsep] at henc ⊢
            rw [show hexDigit (8233 % 16) = 57 from rfl, List.append_assoc,
              parseStringAux_separator f' 57 (by omega),
              ih t2 f' rest (by omega) hvalid' (by omega), show 8176 + 57 = 8233 from rfl]
            simp [henc]
        · have hout : appendStringAux (n + 1) (b :: b1 :: b2 :: t2) =
              b :: b1 :: b2 :: appendStringAux n t2 := by
            simp only [appendStringAux, hb, if_false, hd, c1, hsep]
            rfl
          rw [hout] at hf ⊢
          simp only [List.length_cons] at hf
          simp only [List.cons_append]
          simp only [parseStringAux, e1, e2, e3, hb, if_false, hd2, henc,
            List.drop_succ_cons, List.drop_zero]
          rw [ih t2 f' rest (by omega) hvalid' (by omega)]
          rfl
      · have hd2 : ∀ u, decodeRune (b :: b1 :: b2 :: b3 :: u) =
            ((b % 8) * 262144 + (b1 % 64) * 4096 + (b2 % 64) * 64 + b3 % 64, 4) := by
          intro u
          rw [decodeRune_four b b1 b2 b3 u h1 h2, if_neg (by omega), if_neg (by omega),
            if_neg (by omega)]
        have hd := hd2 t3
        have henc := appendRune_four b b1 b2 b3 h1 h2 h3 h4 h5 h6 h7 h8
        have hvalid' : validAux n t3 = true := by
          simpa [validAux, hd] using hvalid
        simp only [List.length_cons] at hlen
        have k3 : (b = 0xF0 → 0x90 ≤ b1) ∧ 0x80 ≤ b1 := by split_ifs at h3 <;> omega
        have k4 : b1 ≤ 0xBF := by split_ifs at h4 <;> omega
        have hout : appendStringAux (n + 1) (b :: b1 :: b2 :: b3 :: t3) =
            b :: b1 :: b2 :: b3 :: appendStringAux n t3 := by
          have c1 : ¬ (b % 8 * 262144 + b1 % 64 * 4096 + b2 % 64 * 64 + b3 % 64 = RuneError ∧
              (4 : Nat) = 1) := by omega
          have hbig : 65536 ≤ b % 8 * 262144 + b1 % 64 * 4096 + b2 % 64 * 64 + b3 % 64 := by
            by_cases hF : b = 0xF0
            · have := k3.1 hF
              omega
            · omega
          have c2 : ¬ (b % 8 * 262144 + b1 % 64 * 4096 + b2 % 64 * 64 + b3 % 64 = 0x2028 ∨
              b % 8 * 262144 + b1 % 64 * 4096 + b2 % 64 * 64 + b3 % 64 = 0x2029) := by omega
          simp only [appendStringAux, hb, if_false, hd, c1, c2]
          rfl
        rw [hout] at hf ⊢
        simp only [List.length_cons] at hf
        simp only [List.cons_append]
        simp only [parseStringAux, e1, e2, e3, hb, if_false, hd2, henc,
          List.drop_succ_cons, List.drop_zero]
        rw [ih t3 f' rest (by omega) hvalid' (by omega)]
        rfl

/-! ### The parser on the text written by `MarshalIndent` -/

theorem parseString_appendString (s rest : GoString) (hv : utf8Valid s = true) :
    parseString (appendStringAux s.length s ++ 34 :: rest) = some (s, rest) := by
  unfold parseString
  apply parseStringAux_appendStringAux s.length s _ rest (Nat.le_refl _) hv
  simp [List.length_append]

theorem skipWS_self (c : Nat) (t : GoString) (hc : isWS c = false) : skipWS (c :: t) = c :: t := by
  unfold skipWS
  rw [List.dropWhile_cons_of_neg (by simp [hc])]

theorem skipWS_newline (depth : Nat) (c : Nat) (t : GoString) (hc : isWS c = false) :
    skipWS (newline depth ++ c :: t) = c :: t := by
  have h : ∀ n, skipWS (List.replicate n 32 ++ c :: t) = c :: t := by
    intro n
    induction n with
    | zero => exact skipWS_self c t hc
    | succ n ih =>
      simp only [List.replicate_succ, List.cons_append]
      unfold skipWS at ih ⊢
      rw [List.dropWhile_cons_of_pos (by decide)]
      exact ih
  unfold newline
  rw [List.cons_append]
  unfold skipWS at h ⊢
  rw [List.dropWhile_cons_of_pos (by decide)]
  exact h _

theorem skipWS_space (c : Nat) (t : GoString) (hc : isWS c = false) :
    skipWS (32 :: c :: t) = c :: t := by
  unfold skipWS
  rw [List.dropWhile_cons_of_pos (by decide), List.dropWhile_cons_of_neg (by simp [hc])]

/-- A quoted, valid UTF-8 string is parsed as a string value. -/
theorem parseValue_string (f d : Nat) (s input rest : GoString) (hv : utf8Valid s = true)
    (h : skipWS input = appendString s ++ rest) :
    parseValue (f + 1) d input = some (JSON.str s, rest) := by
  have hp := parseString_appendString s rest hv
  simp only [appendString, List.singleton_append, List.cons_append, List.append_assoc] at h
  simp [parseValue, h, hp]

theorem parseValue_bool (f d : Nat) (b : Bool) (input rest : GoString)
    (h : skipWS input = (if b then lit "true" else lit "false") ++ rest) :
    parseValue (f + 1) d input = some (JSON.bool b, rest) := by
  cases b
  · have h2 : skipWS input = 102 :: 97 :: 108 :: 115 :: 101 :: rest := h
    simp [parseValue, h2]
  · have h2 : skipWS input = 116 :: 114 :: 117 :: 101 :: rest := h
    simp [parseValue, h2]

theorem parseMembers_cons (f d : Nat) (s t r r2 r3 r4 r5 key : GoString) (v : JSON)
    (ms : List (GoString × JSON))
    (h1 : skipWS s = 34 :: t) (h2 : parseString t = some (key, r))
    (h3 : skipWS r = 58 :: r2) (h4 : parseValue f d r2 = some (v, r3))
    (h5 : skipWS r3 = 44 :: r4) (h6 : parseMembers f d r4 = some (ms, r5)) :
    parseMembers (f + 1) d s = some ((key, v) :: ms, r5) := by
  simp [parseMembers, h1, h2, h3, h4, h5, h6]

theorem parseMembers_last (f d : Nat) (s t r r2 r3 r4 key : GoString) (v : JSON)
    (h1 : skipWS s = 34 :: t) (h2 : parseString t = some (key, r))
    (h3 : skipWS r = 58 :: r2) (h4 : parseValue f d r2 = some (v, r3))
    (h5 : skipWS r3 = 125 :: r4) :
    parseMembers (f + 1) d s = some ([(key, v)], r4) := by
  simp [parseMembers, h1, h2, h3, h4, h5]

theorem parseElements_cons (f d : Nat) (s r r2 r3 : GoString) (v : JSON) (vs : List JSON)
    (h1 : parseValue f d s = some (v, r)) (h2 : skipWS r = 44 :: r2)
    (h3 : parseElements f d r2 = some (vs, r3)) :
    parseElements (f + 1) d s = some (v :: vs, r3) := by
  simp [parseElements, h1, h2, h3]

theorem parseElements_last (f d : Nat) (s r r2 : GoString) (v : JSON)
    (h1 : parseValue f d s = some (v, r)) (h2 : skipWS r = 93 :: r2) :
    parseElements (f + 1) d s = some ([v], r2) := by
  simp [parseElements, h1, h2]

theorem parseValue_object (f d : Nat) (s t r : GoString) (ms : List (GoString × JSON))
    (hd : d + 1 ≤ maxNestingDepth) (h1 : skipWS s = 123 :: t)
    (h2 : ∃ c u, skipWS t = c :: u ∧ c ≠ 125)
    (h3 : parseMembers f (d + 1) t = some (ms, r)) :
    parseValue (f + 1) d s = some (JSON.obj ms, r) := by
  obtain ⟨c, u, hcu, hc⟩ := h2
  have hd2 : ¬ maxNestingDepth < d + 1 := by omega
  simp [parseValue, h1, hd2, hcu, h3]
  split
  · rename_i heq
    simp at heq
    exact absurd heq.1 hc
  · rfl

theorem parseValue_array (f d : Nat) (s t r : GoString) (vs : List JSON)
    (hd : d + 1 ≤ maxNestingDepth) (h1 : skipWS s = 91 :: t)
    (h2 : ∃ c u, skipWS t = c :: u ∧ c ≠ 93)
    (h3 : parseElements f (d + 1) t = some (vs, r)) :
    parseValue (f + 1) d s = some (JSON.arr vs, r) := by
  obtain ⟨c, u, hcu, hc⟩ := h2
  have hd2 : ¬ maxNestingDepth < d + 1 := by omega
  simp [parseValue, h1, hd2, hcu, h3]
  split
  · rename_i heq
    simp at heq
    exact absurd heq.1 hc
  · rfl

/-- A member `"name": value` followed by a comma and further members. -/
theorem parseMembers_member_cons (f d n : Nat) (name valueText more r5 : GoString) (v : JSON)
    (ms : List (GoString × JSON))
    (hname : appendStringAux name.length name = name) (hv : utf8Valid name = true)
    (hval : parseValue f d (32 :: (valueText ++ 44 :: more)) = some (v, 44 :: more))
    (hmore : parseMembers f d more = some (ms, r5)) :
    parseMembers (f + 1) d
      (newline n ++ 34 :: (name ++ 34 :: 58 :: 32 :: (valueText ++ 44 :: more))) =
      some ((name, v) :: ms, r5) := by
  refine parseMembers_cons f d _ _ _ _ _ _ _ name v ms
    (skipWS_newline n 34 _ (by decide)) ?_ (skipWS_self 58 _ (by decide)) hval
    (skipWS_self 44 _ (by decide)) hmore
  have h := parseString_appendString name (58 :: 32 :: (valueText ++ 44 :: more)) hv
  rw [hname] at h
  exact h

/-- The last member `"name": value` of an object, up to the closing brace. -/
theorem parseMembers_member_last (f d n n2 : Nat) (name valueText rest : GoString) (v : JSON)
    (hname : appendStringAux name.length name = name) (hv : utf8Valid name = true)
    (hval : parseValue f d (32 :: (valueText ++ (newline n2 ++ 125 :: rest))) =
      some (v, newline n2 ++ 125 :: rest)) :
    parseMembers (f + 1) d
      (newline n ++ 34 :: (name ++ 34 :: 58 :: 32 :: (valueText ++ (newline n2 ++ 125 :: rest)))) =
      some ([(name, v)], rest) := by
  refine parseMembers_last f d _ _ _ _ _ _ name v
    (skipWS_newline n 34 _ (by decide)) ?_ (skipWS_self 58 _ (by decide)) hval
    (skipWS_newline n2 125 _ (by decide))
  have h := parseString_appendString name
    (58 :: 32 :: (valueText ++ (newline n2 ++ 125 :: rest))) hv
  rw [hname] at h
  exact h

theorem appendString_head (s rest : GoString) :
    appendString s ++ rest = 34 :: (appendStringAux s.length s ++ 34 :: rest) := by
  simp [appendString]

theorem skipWS_space_appendString (s rest : GoString) :
    skipWS (32 :: (appendString s ++ rest)) = appendString s ++ rest := by
  rw [appendString_head]
  exact skipWS_space 34 _ (by decide)

theorem encodeKey_append (k : SSHKey) (rest : GoString) :
    encodeKey k ++ rest =
      123 :: (newline 3 ++ 34 :: (lit "path" ++ 34 :: 58 :: 32 :: (appendString k.Path ++ 44 ::
        (newline 3 ++ 34 :: (lit "alias" ++ 34 :: 58 :: 32 :: (appendString k.Alias ++ 44 ::
          (newline 3 ++ 34 :: (lit "sudo_mode" ++ 34 :: 58 :: 32 ::
            ((if k.SudoMode then lit "true" else lit "false") ++
              (newline 2 ++ 125 :: rest)))))))))) := by
  have e1 : lit "\"path\": " = 34 :: (lit "path" ++ [34, 58, 32]) := by decide
  have e2 : lit "\"alias\": " = 34 :: (lit "alias" ++ [34, 58, 32]) := by decide
  have e3 : lit "\"sudo_mode\": " = 34 :: (lit "sudo_mode" ++ [34, 58, 32]) := by decide
  simp only [encodeKey, e1, e2, e3, List.append_assoc, List.cons_append, List.nil_append,
    List.singleton_append]

/-- The parser reads back the object written for one key. -/
theorem parseValue_encodeKey (k : SSHKey) (hP : utf8Valid k.Path = true)
    (hA : utf8Valid k.Alias = true) (f : Nat) (rest : GoString) :
    parseValue (f + 5) 2 (newline 2 ++ (encodeKey k ++ rest)) = some (keyJSON k, rest) := by
  rw [encodeKey_append]
  refine parseValue_object (f + 4) 2 _ _ rest _ (by decide)
    (skipWS_newline 2 123 _ (by decide)) ⟨34, _, skipWS_newline 3 34 _ (by decide), by decide⟩ ?_
  refine parseMembers_member_cons (f + 3) 3 3 (lit "path") _ _ _ _ _ (by decide) (by decide)
    (parseValue_string (f + 2) 3 k.Path _ _ hP (skipWS_space_appendString _ _)) ?_
  refine parseMembers_member_cons (f + 2) 3 3 (lit "alias") _ _ _ _ _ (by decide) (by decide)
    (parseValue_string (f + 1) 3 k.Alias _ _ hA (skipWS_space_appendString _ _)) ?_
  refine parseMembers_member_last (f + 1) 3 3 2 (lit "sudo_mode") _ _ _ (by decide) (by decide)
    (parseValue_bool f 3 k.SudoMode _ _ ?_)
  cases k.SudoMode
  · exact skipWS_space 102 _ (by decide)
  · exact skipWS_space 116 _ (by decide)

/-- The parser reads back the elements written for a non-empty store. -/
theorem parseElements_encodeKeys (ks : List SSHKey) (hne : ks ≠ [])
    (hvalid : ∀ k ∈ ks, utf8Valid k.Path = true ∧ utf8Valid k.Alias = true) :
    ∀ (f : Nat) (rest : GoString),
      parseElements (f + ks.length + 5) 2
        (newline 2 ++ (encodeKeys ks ++ (newline 1 ++ 93 :: rest))) =
        some (ks.map keyJSON, rest) := by
  induction ks with
  | nil => exact absurd rfl hne
  | cons k ks ih =>
    intro f rest
    have hk := hvalid k (List.mem_cons_self _ _)
    cases ks with
    | nil =>
      exact parseElements_last (f + 0 + 5) 2 _ _ rest (keyJSON k)
        (parseValue_encodeKey k hk.1 hk.2 (f + 0) _) (skipWS_newline 1 93 _ (by decide))
    | cons k2 ks2 =>
      have ih2 := ih (by simp) (fun x hx => hvalid x (List.mem_cons_of_mem _ hx)) f rest
      have e : encodeKeys (k :: k2 :: ks2) ++ (newline 1 ++ 93 :: rest) =
          encodeKey k ++ (44 :: (newline 2 ++ (encodeKeys (k2 :: ks2) ++
            (newline 1 ++ 93 :: rest)))) := by
        simp [encodeKeys, List.append_assoc]
      rw [e]
      have hf : f + (k :: k2 :: ks2).length + 5 = (f + (k2 :: ks2).length + 5) + 1 := by
        simp only [List.length_cons]
        omega
      rw [hf]
      exact parseElements_cons (f + (k2 :: ks2).length + 5) 2 _ _ _ rest (keyJSON k) _
        (parseValue_encodeKey k hk.1 hk.2 (f + (k2 :: ks2).length) _)
        (skipWS_self 44 _ (by decide)) ih2

theorem encodeKey_length_pos (k : SSHKey) : 0 < (encodeKey k).length := by
  simp [encodeKey]

theorem encodeKeys_length (ks : List SSHKey) : ks.length ≤ (encodeKeys ks).length := by
  induction ks with
  | nil => simp
  | cons k ks ih =>
    cases ks with
    | nil =>
      have := encodeKey_length_pos k
      simpa [encodeKeys] using this
    | cons k2 ks2 =>
      have := encodeKey_length_pos k
      simp only [encodeKeys, List.length_append, List.length_cons] at ih ⊢
      omega

theorem storeFields_keyJSON (k : SSHKey) :
    storeFields SSHKey.zero
      [(lit "path", JSON.str k.Path), (lit "alias", JSON.str k.Alias),
        (lit "sudo_mode", JSON.bool k.SudoMode)] = some k := by
  have p1 : fieldIs "path" (lit "path") = true := by decide
  have p2 : fieldIs "path" (lit "alias") = false := by decide
  have p3 : fieldIs "alias" (lit "alias") = true := by decide
  have p4 : fieldIs "path" (lit "sudo_mode") = false := by decide
  have p5 : fieldIs "alias" (lit "sudo_mode") = false := by decide
  have p6 : fieldIs "sudo_mode" (lit "sudo_mode") = true := by decide
  simp [storeFields, storeField, p1, p2, p3, p4, p5, p6, SSHKey.zero]

theorem decodeKeys_keyJSON (ks : List SSHKey) :
    decodeKeys [] (ks.map keyJSON) = some ks := by
  induction ks with
  | nil => rfl
  | cons k ks ih =>
    simp only [List.map_cons, decodeKeys, List.headD_nil, List.tail_nil, ih]
    simp [decodeKey, keyJSON, storeFields_keyJSON]

theorem parseValue_null (f d : Nat) (input rest : GoString)
    (h : skipWS input = 110 :: 117 :: 108 :: 108 :: rest) :
    parseValue (f + 1) d input = some (JSON.null, rest) := by
  simp [parseValue, h]

theorem parseValue_empty_array (f d : Nat) (input rest : GoString)
    (hd : d + 1 ≤ maxNestingDepth) (h : skipWS input = 91 :: 93 :: rest) :
    parseValue (f + 1) d input = some (JSON.arr [], rest) := by
  have hd2 : ¬ maxNestingDepth < d + 1 := by omega
  have h2 : skipWS (93 :: rest) = 93 :: rest := skipWS_self 93 rest (by decide)
  simp [parseValue, h, hd2, h2]

theorem encodeKeys_head (k : SSHKey) (ks : List SSHKey) :
    ∃ u, encodeKeys (k :: ks) = 123 :: u := by
  cases ks with
  | nil => exact ⟨_, by simp [encodeKeys, encodeKey]; rfl⟩
  | cons k2 ks2 => exact ⟨_, by simp [encodeKeys, encodeKey]; rfl⟩

theorem MarshalIndent_eq (c : Config) :
    MarshalIndent c =
      123 :: (newline 1 ++ 34 :: (lit "keys" ++ 34 :: 58 :: 32 ::
        ((match c.Keys with
          | none => lit "null"
          | some [] => lit "[]"
          | some (k :: ks) => 91 :: (newline 2 ++ (encodeKeys (k :: ks) ++ (newline 1 ++ [93])))) ++
          (newline 0 ++ [125])))) := by
  have e1 : lit "\"keys\": " = 34 :: (lit "keys" ++ [34, 58, 32]) := by decide
  rcases c with ⟨_ | _ | ⟨k, ks⟩⟩ <;>
    simp only [MarshalIndent, e1, List.append_assoc, List.cons_append, List.nil_append,
      List.singleton_append]

/-- The parser reads back the text `MarshalIndent` writes for a store of valid
UTF-8 strings. -/
theorem parseValue_MarshalIndent (c : Config)
    (hvalid : ∀ k ∈ c.keys, utf8Valid k.Path = true ∧ utf8Valid k.Alias = true) (f : Nat) :
    parseValue (f + c.keys.length + 8) 0 (MarshalIndent c) = some (configJSON c, []) := by
  rw [MarshalIndent_eq]
  refine parseValue_object (f + c.keys.length + 7) 0 _ _ [] _ (by decide)
    (skipWS_self 123 _ (by decide)) ⟨34, _, skipWS_newline 1 34 _ (by decide), by decide⟩ ?_
  refine parseMembers_member_last (f + c.keys.length + 6) 1 1 0 (lit "keys") _ _ _
    (by decide) (by decide) ?_
  rcases c with ⟨_ | _ | ⟨k, ks⟩⟩
  · exact parseValue_null _ 1 _ _ (skipWS_space 110 _ (by decide))
  · exact parseValue_empty_array _ 1 _ _ (by decide) (skipWS_space 91 _ (by decide))
  · have hlen : f + (Config.keys ⟨some (k :: ks)⟩).length + 6 =
        (f + (k :: ks).length + 5) + 1 := rfl
    rw [hlen]
    have h := parseElements_encodeKeys (k :: ks) (by simp) hvalid f (newline 0 ++ [125])
    obtain ⟨u, hu⟩ := encodeKeys_head k ks
    have htext : (91 :: (newline 2 ++ (encodeKeys (k :: ks) ++ (newline 1 ++ [93])))) ++
        (newline 0 ++ [125]) =
        91 :: (newline 2 ++ (encodeKeys (k :: ks) ++ (newline 1 ++ 93 :: (newline 0 ++ [125])))) := by
      simp
    show parseValue _ 1 (32 :: ((91 :: (newline 2 ++ (encodeKeys (k :: ks) ++
      (newline 1 ++ [93])))) ++ (newline 0 ++ [125]))) = _
    rw [htext]
    refine parseValue_array (f + (k :: ks).length + 5) 1 _ _ _ _ (by decide)
      (skipWS_space 91 _ (by decide)) ⟨123, u ++ (newline 1 ++ 93 :: (newline 0 ++ [125])), ?_,
        by decide⟩ h
    rw [hu]
    exact skipWS_newline 2 123 _ (by decide)

theorem MarshalIndent_length (c : Config) : c.keys.length + 7 ≤ (MarshalIndent c).length := by
  rw [MarshalIndent_eq]
  rcases c with ⟨_ | _ | ⟨k, ks⟩⟩
  · simp [Config.keys, newline, lit]
  · simp [Config.keys, newline, lit]
  · have := encodeKeys_length (k :: ks)
    simp only [Config.keys, Option.getD_some, List.length_cons, List.length_append, newline,
      List.length_replicate, lit] at this ⊢
    simp
    omega

/-- The decoder inverts the encoder on a store of valid UTF-8 strings. -/
theorem Unmarshal_MarshalIndent (c : Config)
    (hvalid : ∀ k ∈ c.keys, utf8Valid k.Path = true ∧ utf8Valid k.Alias = true) :
    Unmarshal (MarshalIndent c) Config.zero = some c := by
  have hlen := MarshalIndent_length c
  have hp := parseValue_MarshalIndent c hvalid ((MarshalIndent c).length - c.keys.length - 7)
  have e : (MarshalIndent c).length - c.keys.length - 7 + c.keys.length + 8 =
      (MarshalIndent c).length + 1 := by omega
  rw [e] at hp
  have hk : fieldIs "keys" (lit "keys") = true := by decide
  unfold Unmarshal parseJSON
  rw [hp]
  rcases c with ⟨_ | _ | ⟨k, ks⟩⟩
  · simp [configJSON, skipWS, storeConfigFields, storeConfigField, hk]
  · simp [configJSON, skipWS, storeConfigFields, storeConfigField, hk]
  · have hdec := decodeKeys_keyJSON (k :: ks)
    simp only [List.map_cons] at hdec
    simp [configJSON, skipWS, storeConfigFields, storeConfigField, hk, Config.keys, Config.zero,
      hdec]

/-- C1 as stated fails: a store whose key path is the byte `0xFF` is written
by `saveConfig` with the escape of U+FFFD in place of the byte, so
`loadConfig` on the written bytes yields a store with a different path. -/
theorem save_load_counterexample :
    writes (saveConfig (okEnv ReadFileResult.notExist []) invalidPathConfig).1 =
      [MarshalIndent invalidPathConfig] ∧
    loadConfig (okEnv (ReadFileResult.contents (MarshalIndent invalidPathConfig)) []) Config.zero =
      ([], some { Keys := some [{ Path := [0xEF, 0xBF, 0xBD], Alias := lit "k", SudoMode := false }] }) ∧
    (loadConfig (okEnv (ReadFileResult.contents (MarshalIndent invalidPathConfig)) [])
      Config.zero).2 ≠ some invalidPathConfig := by
  decide

/-- C1, amended. Round trip: for any store whose path and alias strings are
valid UTF-8 (any number of records, any sudo flags, a nil or an empty slice
included), the bytes `saveConfig` writes are parsed by `loadConfig`, started
from the zero configuration, into a store equal to the one saved: same
records, same order, same field values. -/
theorem save_load_round_trip (c : Config) (env env2 : Env) (data : GoString)
    (hvalid : ∀ k ∈ c.keys, utf8Valid k.Path = true ∧ utf8Valid k.Alias = true)
    (hsave : writes (saveConfig env c).1 = [data])
    (hdir : env2.mkdirAll = none)
    (hfile : env2.readFile = ReadFileResult.contents data) :
    loadConfig env2 Config.zero = ([], some c) := by
  have hd : data = MarshalIndent c := by
    simp [saveConfig, writes] at hsave
    exact hsave.symm
  subst hd
  simp [loadConfig, hdir, hfile, Unmarshal_MarshalIndent c hvalid]

/-- C1, amended, at the store with two keys (one in sudo mode). -/
theorem save_load_round_trip_witness :
    loadConfig (okEnv (ReadFileResult.contents twoKeyFile) []) Config.zero =
      ([], some { Keys := some [{ Path := lit "/tmp/key1", Alias := lit "key1", SudoMode := false },
        { Path := lit "/tmp/key2", Alias := lit "work", SudoMode := true }] }) :=
  save_load_round_trip
    { Keys := some [{ Path := lit "/tmp/key1", Alias := lit "key1", SudoMode := false },
      { Path := lit "/tmp/key2", Alias := lit "work", SudoMode := true }] }
    (okEnv ReadFileResult.notExist []) (okEnv (ReadFileResult.contents twoKeyFile) []) twoKeyFile
    (by decide) (by decide) (by decide) (by decide)

theorem decodeRune_size_pos (b : Nat) (t : GoString) : 1 ≤ (decodeRune (b :: t)).2 := by
  by_cases hb : b < 0x80
  · rw [decodeRune_ascii b t hb]
  · by_cases hv : (decodeRune (b :: t)).1 = RuneError ∧ (decodeRune (b :: t)).2 = 1
    · rw [hv.2]
    · rcases decodeRune_shapes b t hb hv with
        ⟨b1, t1, rfl, h1, h2, h3, h4⟩ | ⟨b1, b2, t2, rfl, h1, h2, h3, h4, h5, h6⟩ |
        ⟨b1, b2, b3, t3, rfl, h1, h2, h3, h4, h5, h6, h7, h8⟩
      · rw [decodeRune_two b b1 t1 h1 h2, if_neg (by omega)]
        simp
      · rw [decodeRune_three b b1 b2 t2 h1 h2, if_neg (by omega), if_neg (by omega)]
        simp
      · rw [decodeRune_four b b1 b2 b3 t3 h1 h2, if_neg (by omega), if_neg (by omega),
          if_neg (by omega)]
        simp

/-- A valid encoding at the head of a string decodes the same whatever
follows the string. -/
theorem decodeRune_append (r x : GoString) (hr : r ≠ [])
    (hv : ¬ ((decodeRune r).1 = RuneError ∧ (decodeRune r).2 = 1)) :
    decodeRune (r ++ x) = decodeRune r := by
  rcases r with _ | ⟨b, t⟩
  · exact absurd rfl hr
  by_cases hb : b < 0x80
  · rw [List.cons_append, decodeRune_ascii b t hb, decodeRune_ascii b _ hb]
  · rcases decodeRune_shapes b t hb hv with
      ⟨b1, t1, rfl, h1, h2, h3, h4⟩ | ⟨b1, b2, t2, rfl, h1, h2, h3, h4, h5, h6⟩ |
      ⟨b1, b2, b3, t3, rfl, h1, h2, h3, h4, h5, h6, h7, h8⟩
    · simp only [List.cons_append]
      rw [decodeRune_two b b1 _ h1 h2, decodeRune_two b b1 _ h1 h2]
    · simp only [List.cons_append]
      rw [decodeRune_three b b1 b2 _ h1 h2, decodeRune_three b b1 b2 _ h1 h2]
    · simp only [List.cons_append]
      rw [decodeRune_four b b1 b2 b3 _ h1 h2, decodeRune_four b b1 b2 b3 _ h1 h2]

theorem trimLeftAux_head (n : Nat) :
    ∀ s : GoString, s.length ≤ n →
      trimLeftAux n s = [] ∨ isSpace (decodeRune (trimLeftAux n s)).1 = false := by
  induction n with
  | zero =>
    intro s hs
    left
    have : s = [] := List.length_eq_zero.1 (by omega)
    subst this
    rfl
  | succ n ih =>
    intro s hs
    rcases s with _ | ⟨b, t⟩
    · left; rfl
    · simp only [trimLeftAux]
      split
      · apply ih
        have := decodeRune_size_pos b t
        simp only [List.length_drop, List.length_cons] at hs ⊢
        omega
      · rename_i h
        right
        simpa using h

theorem trimRightAux_drop (n : Nat) :
    ∀ rev : GoString, ∃ k, trimRightAux n rev = rev.drop k := by
  induction n with
  | zero => intro rev; exact ⟨0, rfl⟩
  | succ n ih =>
    intro rev
    rcases rev with _ | ⟨b, t⟩
    · exact ⟨0, rfl⟩
    · simp only [trimRightAux]
      split
      · obtain ⟨k, hk⟩ := ih ((b :: t).drop (decodeLastRune (b :: t)).2)
        exact ⟨(decodeLastRune (b :: t)).2 + k, by rw [hk, List.drop_drop]⟩
      · exact ⟨0, rfl⟩

/-- The result of `TrimSpace` is empty or starts with a rune that is not
white space. -/
theorem TrimSpace_head (s : GoString) :
    TrimSpace s = [] ∨ isSpace (decodeRune (TrimSpace s)).1 = false := by
  unfold TrimSpace
  simp only
  obtain ⟨k, hk⟩ := trimRightAux_drop (trimLeftAux s.length s).length
    (trimLeftAux s.length s).reverse
  rw [hk]
  have hl := trimLeftAux_head s.length s (Nat.le_refl _)
  generalize trimLeftAux s.length s = l at hl
  have hpre : l = (l.reverse.drop k).reverse ++ (l.reverse.take k).reverse := by
    rw [← List.reverse_append, List.take_append_drop, List.reverse_reverse]
  generalize (l.reverse.drop k).reverse = r at hpre
  generalize (l.reverse.take k).reverse = x at hpre
  by_cases hr : r = []
  · left; exact hr
  · right
    rcases hl with hl | hl
    · rw [hl] at hpre
      have := congrArg List.length hpre
      simp only [List.length_nil, List.length_append] at this
      exact absurd (List.length_eq_zero.1 (by omega)) hr
    · by_cases hv : (decodeRune r).1 = RuneError ∧ (decodeRune r).2 = 1
      · rw [hv.1]
        decide
      · rw [hpre, decodeRune_append r x hr hv] at hl
        exact hl

theorem skipSpace_TrimSpace (s : GoString) : skipSpace (TrimSpace s) = some (TrimSpace s) := by
  have h := TrimSpace_head s
  generalize TrimSpace s = r at h
  unfold skipSpace
  rcases r with _ | ⟨b, t⟩
  · rfl
  · rcases h with h | h
    · cases h
    · have h10 : ¬ (decodeRune (b :: t)).1 = 10 := by
        intro h2
        rw [h2] at h
        revert h
        decide
      simp only [List.length_cons, skipSpaceAux, h10, h, if_false]
      simp

/-- On trimmed text `Sscanf` with `%d` yields the leading integer, provided it
fits 64 bits. -/
theorem SscanfInt_TrimSpace (s : GoString) :
    SscanfInt (TrimSpace s) =
      match leadingInteger (TrimSpace s) with
      | none => none
      | some v => if v < -(2 ^ 63 : Int) ∨ (2 ^ 63 : Int) - 1 < v then none else some v := by
  have h := skipSpace_TrimSpace s
  generalize TrimSpace s = r at h
  unfold SscanfInt leadingInteger
  simp only [h]
  split_ifs <;> simp_all

/-- C5 as stated fails: with one key registered, the selection line `1abc`
is not an integer as a whole, yet `switchCommand` reads the leading `1`, does
not report an invalid selection and runs both agent commands. -/
theorem switch_selection_counterexample :
    wholeInteger (TrimSpace (lit "1abc\n")) = false ∧
    leadingInteger (TrimSpace (lit "1abc\n")) = some 1 ∧
    Event.print "Invalid selection. Please enter a valid number.\n" ∉
      (switchCommand (okEnv (ReadFileResult.contents oneKeyFile) (lit "1abc\n"))).events ∧
    commands (switchCommand (okEnv (ReadFileResult.contents oneKeyFile) (lit "1abc\n"))).events =
      [[lit "ssh-add", lit "-D"], [lit "ssh-add", lit "/tmp/key1"]] := by
  decide

/-- C5, amended. Selection bounds: for every non-empty store of size N and
every selection line whose trimmed text does not start with an integer (an
optional sign followed by at least one decimal digit), or starts with one
whose value lies outside `[1, N]` (such as 0 or N+1), `switchCommand` ends
with the invalid-selection message and runs no external command.  Text after
the leading integer is not looked at. -/
theorem switch_selection_bounds (env : Env) (ev : List Event) (config : Config)
    (selection rest : GoString)
    (hload : loadConfig env Config.zero = (ev, some config))
    (hne : config.keys ≠ [])
    (hread : readString env.stdin = some (selection, rest))
    (hbad : leadingInteger (TrimSpace selection) = none ∨
      ∃ v, leadingInteger (TrimSpace selection) = some v ∧
        (v < 1 ∨ (config.keys.length : Int) < v)) :
    (switchCommand env).events.getLast? =
      some (Event.print "Invalid selection. Please enter a valid number.\n") ∧
    commands (switchCommand env).events = [] := by
  have hscan : SscanfInt (TrimSpace selection) = none ∨
      ∃ v, SscanfInt (TrimSpace selection) = some v ∧
        (v < 1 ∨ (config.keys.length : Int) < v) := by
    rw [SscanfInt_TrimSpace]
    rcases hbad with h | ⟨v, h, hv⟩
    · left
      rw [h]
    · rw [h]
      by_cases hr : v < -(2 ^ 63 : Int) ∨ (2 ^ 63 : Int) - 1 < v
      · left
        simp only [hr, if_true]
      · right
        exact ⟨v, by simp only [hr, if_false], hv⟩
  rw [switchCommand_invalid env ev config selection rest hload hne hread hscan]
  constructor
  · exact getLast?_append_two _ _ _
  · simp [commands_append, commands_printKeys, commands]

/-- C5, amended, at the store with one key and the selection line `2`
(that is N+1): invalid selection, no command run. -/
theorem switch_selection_bounds_witness :
    (switchCommand (okEnv (ReadFileResult.contents oneKeyFile) (lit "2\n"))).events.getLast? =
      some (Event.print "Invalid selection. Please enter a valid number.\n") ∧
    commands (switchCommand (okEnv (ReadFileResult.contents oneKeyFile) (lit "2\n"))).events = [] :=
  switch_selection_bounds (okEnv (ReadFileResult.contents oneKeyFile) (lit "2\n")) []
    { Keys := some [{ Path := lit "/tmp/key1", Alias := lit "key1", SudoMode := false }] }
    (lit "2\n") [] (by decide) (by decide) (by decide)
    (Or.inr ⟨2, by decide, by decide⟩)

/-! ### Lower-casing: only `y` and `Y` lower to `y` -/

theorem appendRune_ne_nil (r : Nat) : appendRune r ≠ [] := by
  unfold appendRune
  split_ifs <;> simp

theorem appendRune_eq_singleton (r c : Nat) (h : appendRune r = [c]) : r = c := by
  unfold appendRune at h
  split_ifs at h <;> simp at h
  exact h

theorem decodeRune_nonascii (b : Nat) (t : GoString) (hb : ¬ b < 0x80) :
    0x80 ≤ (decodeRune (b :: t)).1 := by
  by_cases hv : (decodeRune (b :: t)).1 = RuneError ∧ (decodeRune (b :: t)).2 = 1
  · rw [hv.1]
    decide
  · rcases decodeRune_shapes b t hb hv with
      ⟨b1, t1, rfl, h1, h2, h3, h4⟩ | ⟨b1, b2, t2, rfl, h1, h2, h3, h4, h5, h6⟩ |
      ⟨b1, b2, b3, t3, rfl, h1, h2, h3, h4, h5, h6, h7, h8⟩
    · rw [decodeRune_two b b1 t1 h1 h2, if_neg (by omega)]
      show 0x80 ≤ b % 32 * 64 + b1 % 64
      omega
    · rw [decodeRune_three b b1 b2 t2 h1 h2, if_neg (by omega), if_neg (by omega)]
      show 0x80 ≤ b % 16 * 4096 + b1 % 64 * 64 + b2 % 64
      have k3 : (b = 0xE0 → 0xA0 ≤ b1) ∧ 0x80 ≤ b1 := by split_ifs at h3 <;> omega
      have k4 : b1 ≤ 0xBF := by split_ifs at h4 <;> omega
      by_cases hE : b = 0xE0
      · have := k3.1 hE
        omega
      · omega
    · rw [decodeRune_four b b1 b2 b3 t3 h1 h2, if_neg (by omega), if_neg (by omega),
        if_neg (by omega)]
      show 0x80 ≤ b % 8 * 262144 + b1 % 64 * 4096 + b2 % 64 * 64 + b3 % 64
      have k3 : (b = 0xF0 → 0x90 ≤ b1) ∧ 0x80 ≤ b1 := by split_ifs at h3 <;> omega
      have k4 : b1 ≤ 0xBF := by split_ifs at h4 <;> omega
      by_cases hF : b = 0xF0
      · have := k3.1 hF
        omega
      · omega

theorem runesAux_eq_nil (n : Nat) (s : GoString) (hn : s.length ≤ n) (h : runesAux n s = []) :
    s = [] := by
  rcases s with _ | ⟨b, t⟩
  · rfl
  · obtain ⟨m, rfl⟩ : ∃ m, n = m + 1 := ⟨n - 1, by simp at hn; omega⟩
    simp [runesAux] at h

theorem append_eq_singleton_of_ne_nil {α : Type} (a b : List α) (c : α) (ha : a ≠ [])
    (h : a ++ b = [c]) : a = [c] ∧ b = [] := by
  rcases a with _ | ⟨x, a2⟩
  · exact absurd rfl ha
  · simp only [List.cons_append, List.cons.injEq, List.append_eq_nil] at h
    obtain ⟨h1, h2, h3⟩ := h
    subst h1 h2 h3
    exact ⟨rfl, rfl⟩

/-- With a case table in which no rune from U+0080 on lowers to `y`, the
strings that `ToLower` maps to `y` are `y` and `Y`. -/
theorem ToLower_eq_y (lower : Nat → Nat) (hl : ∀ r, 0x80 ≤ r → lower r ≠ 121) (s : GoString) :
    ToLower lower s = lit "y" ↔ s = lit "y" ∨ s = lit "Y" := by
  have hy : lit "y" = [121] := rfl
  have hY : lit "Y" = [89] := rfl
  rw [hy, hY]
  constructor
  · intro h
    unfold ToLower at h
    split at h
    · rcases s with _ | ⟨c, t⟩
      · simp at h
      · simp only [List.map_cons, List.cons.injEq, List.map_eq_nil_iff] at h
        obtain ⟨hc, ht⟩ := h
        subst ht
        split_ifs at hc
        · right
          have : c = 89 := by omega
          rw [this]
        · left
          rw [hc]
    · rename_i hall
      exfalso
      rcases s with _ | ⟨b, t⟩
      · simp at hall
      · simp only [runes, List.length_cons, runesAux, List.flatMap_cons] at h
        obtain ⟨h, htail⟩ := append_eq_singleton_of_ne_nil _ _ _ (appendRune_ne_nil _) h
        by_cases hb : b < 0x80
        · rw [decodeRune_ascii b t hb] at htail
          simp only [List.drop_succ_cons, List.drop_zero] at htail
          have hr : runesAux t.length t = [] := by
            rcases hrt : runesAux t.length t with _ | ⟨r, rs⟩
            · rfl
            · rw [hrt] at htail
              simp only [List.flatMap_cons] at htail
              have := appendRune_ne_nil (if r < 128 then
                if 65 ≤ r ∧ r ≤ 90 then r + 32 else r else lower r)
              exact absurd (List.append_eq_nil.1 htail).1 this
          have ht := runesAux_eq_nil t.length t (Nat.le_refl _) hr
          subst ht
          simp [hb] at hall
        · have hd := decodeRune_nonascii b t hb
          have hnot : ¬ (decodeRune (b :: t)).1 < 128 := by omega
          rw [if_neg hnot] at h
          exact hl _ hd (appendRune_eq_singleton _ _ h)
  · intro h
    rcases h with h | h <;> subst h <;> rfl

/-- C10. Sudo flag parsing in `setupCommand`: a record that the command
appends to the store has `SudoMode` true if and only if the sudo answer,
trimmed of surrounding white space and lower-cased, is the one-byte string
`y`; with a Unicode case table in which no rune from U+0080 on lowers to `y`
(as in Unicode), that is if and only if the trimmed answer is `y` or `Y`.
The answers `y`, `Y` and ` y ` give true, and the empty answer, `n`, `yes`
and `yy` give false. -/
theorem setup_sudo_flag (lower : Nat → Nat) (env : Env) (ev : List Event)
    (config : Config) (pathLine in1 aliasLine in2 sudoLine in3 : GoString) (key : SSHKey)
    (hload : loadConfig env Config.zero = (ev, some config))
    (hpath : readString env.stdin = some (pathLine, in1))
    (hstat : env.stat (TrimSpace pathLine) ≠ StatResult.notExist)
    (halias : readString in1 = some (aliasLine, in2))
    (hsudo : readString in2 = some (sudoLine, in3))
    (hadd : (setupCommand lower env).config.keys = config.keys ++ [key]) :
    (key.SudoMode = true ↔ ToLower lower (TrimSpace sudoLine) = lit "y") ∧
    ((∀ r, 0x80 ≤ r → lower r ≠ 121) →
      (key.SudoMode = true ↔ TrimSpace sudoLine = lit "y" ∨ TrimSpace sudoLine = lit "Y")) ∧
    (newKey lower pathLine aliasLine (lit "y\n")).SudoMode = true ∧
    (newKey lower pathLine aliasLine (lit "Y\n")).SudoMode = true ∧
    (newKey lower pathLine aliasLine (lit " y \n")).SudoMode = true ∧
    (newKey lower pathLine aliasLine (lit "\n")).SudoMode = false ∧
    (newKey lower pathLine aliasLine (lit "n\n")).SudoMode = false ∧
    (newKey lower pathLine aliasLine (lit "yes\n")).SudoMode = false ∧
    (newKey lower pathLine aliasLine (lit "yy\n")).SudoMode = false := by
  rw [setupCommand_appended lower env ev config pathLine in1 aliasLine in2 sudoLine in3 key
    hload hpath hstat halias hsudo hadd]
  have h1 : (newKey lower pathLine aliasLine sudoLine).SudoMode = true ↔
      ToLower lower (TrimSpace sudoLine) = lit "y" := by
    simp [newKey]
  refine ⟨h1, ?_, ?_, ?_, ?_, ?_, ?_, ?_, ?_⟩
  · intro hl
    rw [h1]
    exact ToLower_eq_y lower hl (TrimSpace sudoLine)
  all_goals rfl

/-- C10, with no configuration file and the answers `/tmp/key1`, empty, `Y`:
the record appended is in sudo mode. -/
theorem setup_sudo_flag_witness :
    (setupCommand id (okEnv ReadFileResult.notExist (lit "/tmp/key1\n\nY\n"))).config.keys =
        [] ++ [{ Path := lit "/tmp/key1", Alias := lit "key1", SudoMode := true }] ∧
      ((({ Path := lit "/tmp/key1", Alias := lit "key1", SudoMode := true } : SSHKey).SudoMode = true) ↔
        ToLower id (TrimSpace (lit "Y\n")) = lit "y") :=
  ⟨by decide,
    (setup_sudo_flag id (okEnv ReadFileResult.notExist (lit "/tmp/key1\n\nY\n"))
      [] { Keys := some [] } (lit "/tmp/key1\n") (lit "\nY\n") (lit "\n") (lit "Y\n")
      (lit "Y\n") [] { Path := lit "/tmp/key1", Alias := lit "key1", SudoMode := true }
      (by decide) (by decide) (by decide) (by decide) (by decide) (by decide)).1⟩

end SwitchSSH
